import Mathlib

/-!
# Verification of the voter-bags bagged-list pallet

A shallow embedding of `src/frame/voter-bags/src/lib.rs` together with the
`voter_list` module it declares (`mod voter_list;`).  The `voter_list.rs`
source is not part of the repository snapshot, so the list algorithms
(band resolution, insert, remove, reposition, iteration, migration and the
structural sanity check) are modelled from the specification; the pieces
that do appear in `lib.rs` (the storage shape, `do_rebag`, the
`VoterListProvider` hooks and the `Rebagged` event) are embedded from the
source.

Identities (`AccountId`) are modelled as `Nat`; `VoteWeight` is `u64` in the
source, modelled as `Nat` with the explicit maximum `MAXW = 2 ^ 64 - 1`.
The four storage items of the pallet (`CounterForVoters`, `VoterNodes`,
`VoterBagFor`, `VoterBags`) become the fields of `State`, each map being an
association list keyed by `Nat`.
-/

namespace VoterBags

/-- `VoteWeight::MAX`: the largest representable vote weight (`u64::MAX`). -/
def MAXW : Nat := 2 ^ 64 - 1

/-- Modelled from the spec: the role tag of a voter (§3 Node, "role:
Validator|Nominator"); `VoterType` in the missing `voter_list` module. -/
inductive VoterType where
  | validator
  | nominator
deriving DecidableEq

/-- Modelled from the spec: a Node record (§3): identity, predecessor and
successor links within its band, the band's upper bound, and the role tag. -/
structure Node where
  id : Nat
  prev : Option Nat
  next : Option Nat
  bag_upper : Nat
  voter_type : VoterType
deriving DecidableEq

/-- Modelled from the spec: a Bag record (§3): head and tail node identity
for one occupied band; the band's upper bound is the storage key. -/
structure Bag where
  head : Option Nat
  tail : Option Nat
deriving DecidableEq

/-- The storage of the pallet (`lib.rs` storage items): `CounterForVoters`,
`VoterNodes`, `VoterBagFor`, `VoterBags`, plus the deposited `Rebagged`
events (`Event::Rebagged(who, from, to)`). -/
structure State where
  counter : Nat
  nodes : List (Nat × Node)
  bagFor : List (Nat × Nat)
  bags : List (Nat × Bag)
  events : List (Nat × Nat × Nat)
deriving DecidableEq

/-- The empty storage: all maps empty, counter zero. -/
def emptyState : State := ⟨0, [], [], [], []⟩

/-- First-match lookup in an association list (storage-map `get`). -/
def lookup {α : Type} (l : List (Nat × α)) (k : Nat) : Option α :=
  match l with
  | [] => none
  | (k', v) :: rest => if k' = k then some v else lookup rest k

/-- Replace every entry stored at key `k` by the value `v`, in place. -/
def replaceKV {α : Type} (k : Nat) (v : α) (l : List (Nat × α)) : List (Nat × α) :=
  match l with
  | [] => []
  | (k', v') :: rest =>
      if k' = k then (k, v) :: replaceKV k v rest else (k', v') :: replaceKV k v rest

/-- Storage-map `insert`: replace the value in place when the key is
present, otherwise append the new entry. -/
def insertKV {α : Type} (k : Nat) (v : α) (l : List (Nat × α)) : List (Nat × α) :=
  if (lookup l k).isSome then replaceKV k v l else l ++ [(k, v)]

/-- Storage-map `remove`: delete every entry with the given key. -/
def removeKV {α : Type} (k : Nat) (l : List (Nat × α)) : List (Nat × α) :=
  match l with
  | [] => []
  | (k', v') :: rest => if k' = k then removeKV k rest else (k', v') :: removeKV k rest

/-- Storage-map `mutate`: apply `f` to the value stored at `k`, if any. -/
def updateKV {α : Type} (k : Nat) (f : α → α) (l : List (Nat × α)) : List (Nat × α) :=
  match l with
  | [] => []
  | (k', v') :: rest =>
      if k' = k then (k', f v') :: updateKV k f rest else (k', v') :: updateKV k f rest

/-- Modelled from the spec: band resolution (§4.1, `notional_bag_for` of the
missing `voter_list` module): the resolving band of weight `w` is the
smallest threshold `t ≥ w`; if none exists the implicit final band with
upper bound `VoteWeight::MAX` is used. -/
def resolve (ts : List Nat) (w : Nat) : Nat :=
  match ts.find? (fun t => decide (w ≤ t)) with
  | some t => t
  | none => MAXW

/-- Modelled from the spec: append a node for `id` with role `role` at the
tail of the bag with upper bound `upper`, creating the bag when absent
(§4.2 / §4.4 "append the Node at the tail of the new Bag").  Increments the
population counter and records the denormalized `VoterBagFor` entry. -/
def insertAt (id : Nat) (role : VoterType) (upper : Nat) (s : State) : State :=
  let bag := (lookup s.bags upper).getD ⟨none, none⟩
  match bag.tail with
  | none =>
      { counter := s.counter + 1
        nodes := insertKV id ⟨id, none, none, upper, role⟩ s.nodes
        bagFor := insertKV id upper s.bagFor
        bags := insertKV upper ⟨some id, some id⟩ s.bags
        events := s.events }
  | some t =>
      { counter := s.counter + 1
        nodes := insertKV id ⟨id, some t, none, upper, role⟩
          (updateKV t (fun n => { n with next := some id }) s.nodes)
        bagFor := insertKV id upper s.bagFor
        bags := insertKV upper ⟨bag.head, some id⟩ s.bags
        events := s.events }

/-- Modelled from the spec: `VoterList::insert_as` (§4.2): no-op when a Node
for `id` already exists (the caller is responsible for the presence check;
the documented choice here is the idempotent no-op), otherwise query the
weight oracle, resolve the band, and append at its tail. -/
def insert_as (ts : List Nat) (weight_of : Nat → Nat) (id : Nat) (role : VoterType)
    (s : State) : State :=
  if (lookup s.nodes id).isSome then s
  else insertAt id role (resolve ts (weight_of id)) s

/-- Modelled from the spec: the node-store part of unlinking `id` (whose
node is `node`) from its chain: patch the predecessor's `next`, the
successor's `prev`, then delete the node record (§4.3). -/
def unlinkNodes (id : Nat) (node : Node) (nodes : List (Nat × Node)) :
    List (Nat × Node) :=
  let nodes1 :=
    match node.prev with
    | some p => updateKV p (fun n => { n with next := node.next }) nodes
    | none => nodes
  let nodes2 :=
    match node.next with
    | some q => updateKV q (fun n => { n with prev := node.prev }) nodes1
    | none => nodes1
  removeKV id nodes2

/-- Modelled from the spec: the bag-store part of removing `id`: patch the
owning bag's `head`/`tail` endpoints, deleting the bag record when it
becomes empty (§4.3). -/
def removeBagOf (id : Nat) (node : Node) (bag : Bag) (bags : List (Nat × Bag)) :
    List (Nat × Bag) :=
  match (if bag.head = some id then node.next else bag.head),
      (if bag.tail = some id then node.prev else bag.tail) with
  | none, none => removeKV node.bag_upper bags
  | nh, nt => insertKV node.bag_upper ⟨nh, nt⟩ bags

/-- Modelled from the spec: `VoterList::remove` (§4.3): no-op when absent;
otherwise unlink the Node from its Bag's chain, patching neighbour links and
the Bag endpoints, deleting the Bag when it becomes empty, deleting the Node
and decrementing the population counter. -/
def remove (id : Nat) (s : State) : State :=
  match lookup s.nodes id with
  | none => s
  | some node =>
      { counter := s.counter - 1
        nodes := unlinkNodes id node s.nodes
        bagFor := removeKV id s.bagFor
        bags := removeBagOf id node
          ((lookup s.bags node.bag_upper).getD ⟨none, none⟩) s.bags
        events := s.events }

/-- Modelled from the spec: `VoterList::update_position_for` (§4.4): absent
voter ⇒ "no movement"; same resolving band ⇒ "no movement" with no
structural mutation; otherwise unlink from the old bag, append at the tail
of the new bag and return `(old_upper, new_upper)`. -/
def update_position_for (ts : List Nat) (weight_of : Nat → Nat) (id : Nat)
    (s : State) : Option (Nat × Nat) × State :=
  match lookup s.nodes id with
  | none => (none, s)
  | some node =>
      let newUpper := resolve ts (weight_of id)
      if node.bag_upper = newUpper then (none, s)
      else (some (node.bag_upper, newUpper),
        insertAt id node.voter_type newUpper (remove id s))

/-- Embedding of `Pallet::do_rebag` (`lib.rs` lines 180–191): run
`update_position_for` with the staking weight oracle and, on movement,
deposit a `Rebagged(stash, from, to)` event. -/
def do_rebag (ts : List Nat) (weight_of : Nat → Nat) (id : Nat) (s : State) :
    Option (Nat × Nat) × State :=
  let r := update_position_for ts weight_of id s
  match r.1 with
  | some ft => (r.1, { r.2 with events := r.2.events ++ [(id, ft.1, ft.2)] })
  | none => r

/-- Modelled from the spec: the band upper bounds in the iteration order of
§4.5 — strictly descending.  The implicit final band `VoteWeight::MAX` is
included unless the threshold list already ends with it (`lib.rs` lines
84–87: such a list "does not need" the explicit `MAX` entry). -/
def bagUppers (ts : List Nat) : List Nat :=
  (if ts.getLast? = some MAXW then ts else ts ++ [MAXW]).reverse

/-- Modelled from the spec: walk a bag's chain from a head pointer following
`next` links, with explicit fuel (the chain of a well-formed bag is no
longer than the node store). -/
def chainFrom (nodes : List (Nat × Node)) : Nat → Option Nat → List Nat
  | _, none => []
  | 0, some _ => []
  | fuel + 1, some i =>
      match lookup nodes i with
      | some n => i :: chainFrom nodes fuel n.next
      | none => [i]

/-- Modelled from the spec: the members of the bag with upper bound `upper`,
head to tail (insertion order), empty when the bag is absent. -/
def bagMembers (s : State) (upper : Nat) : List Nat :=
  match lookup s.bags upper with
  | none => []
  | some b => chainFrom s.nodes s.nodes.length b.head

/-- Modelled from the spec: `VoterList::iter` (§4.5), as surfaced by
`get_voters` (`lib.rs` lines 196–205): bags in descending order of
`bag_upper`, within each bag head to tail. -/
def iterIds (ts : List Nat) (s : State) : List Nat :=
  (bagUppers ts).flatMap (fun u => bagMembers s u)

/-- The `next` pointer expected at a junction: the first id of `l`, or the
exit pointer `d` when `l` is exhausted. -/
def nextPtr (l : List Nat) (d : Option Nat) : Option Nat :=
  match l with
  | [] => d
  | j :: _ => some j

/-- The `prev` pointer expected after traversing `l`: the last id of `l`, or
the entry pointer `p` when `l` is empty. -/
def lastPtr (p : Option Nat) (l : List Nat) : Option Nat :=
  match l.getLast? with
  | some x => some x
  | none => p

/-- Modelled from the spec: check that the ids `l` form a doubly-linked
chain in bag `u`: entered with `prev = p`, consecutive nodes mutually
linked, exiting with `next = d` (§3 Bag invariant / §4.7). -/
def checkLinks (nodes : List (Nat × Node)) (u : Nat) :
    Option Nat → List Nat → Option Nat → Bool
  | _, [], _ => true
  | p, i :: l, d =>
      match lookup nodes i with
      | none => false
      | some n =>
          decide (n.id = i) && decide (n.bag_upper = u) && decide (n.prev = p) &&
            decide (n.next = nextPtr l d) && checkLinks nodes u (some i) l d

/-- Modelled from the spec: per-bag structural check (§4.7): the chain read
from `head` is non-empty, `head`/`tail` point at its endpoints, and every
link along it is consistent. -/
def checkBag (nodes : List (Nat × Node)) (fuel : Nat) (u : Nat) (b : Bag) : Bool :=
  let l := chainFrom nodes fuel b.head
  !l.isEmpty && decide (b.head = l.head?) && decide (b.tail = l.getLast?) &&
    checkLinks nodes u none l none

/-- The chain of every stored bag, in storage order. -/
def chainsOf (s : State) : List (List Nat) :=
  s.bags.map (fun p => chainFrom s.nodes s.nodes.length p.2.head)

/-- Modelled from the spec: `VoterList::sanity_check` (§4.7, surfaced at
`lib.rs` lines 225–227): a read-only traversal verifying every §3 data-model
invariant, reporting the first violation. -/
def sanity_check (s : State) : Except String Unit :=
  if s.counter ≠ s.nodes.length then .error "counter mismatch" else
  if ¬ (s.nodes.map Prod.fst).Nodup then .error "duplicate node key" else
  if ¬ (s.bags.map Prod.fst).Nodup then .error "duplicate bag key" else
  if ¬ (s.bagFor.map Prod.fst).Nodup then .error "duplicate bagFor key" else
  if s.bagFor.length ≠ s.nodes.length then .error "bagFor size mismatch" else
  if ¬ (s.nodes.all fun p =>
      decide (p.2.id = p.1) && decide (lookup s.bagFor p.1 = some p.2.bag_upper)) then
    .error "node record mismatch" else
  if ¬ (s.bags.all fun p => checkBag s.nodes s.nodes.length p.1 p.2) then
    .error "broken bag chain" else
  if ¬ (chainsOf s).flatten.Nodup then .error "node in two bags" else
  if (chainsOf s).flatten.length ≠ s.nodes.length then .error "orphan node" else
  .ok ()

/-- Modelled from the spec: one step of migration (§4.6): re-resolve one
node under the new threshold table and re-splice it as in §4.4. -/
def migrateOne (tsNew : List Nat) (weight_of : Nat → Nat) (id : Nat) (s : State) : State :=
  (update_position_for tsNew weight_of id s).2

/-- Modelled from the spec: `VoterList::migrate` (§4.6): rebuild band
membership for every existing node by re-resolving it under the new
threshold table (re-querying the weight oracle) and re-splicing as in §4.4,
one node at a time. -/
def migrate (tsNew : List Nat) (weight_of : Nat → Nat) (s : State) : State :=
  (s.nodes.map Prod.fst).foldl (fun acc id => migrateOne tsNew weight_of id acc) s

/-- A public mutating operation of the list (the command surface of §6
together with the `VoterListProvider` hooks of `lib.rs`). -/
inductive Op where
  | ins (id : Nat) (role : VoterType)
  | rem (id : Nat)
  | reb (id : Nat)
deriving DecidableEq

/-- Apply one public operation: `on_validator_insert`/`on_nominator_insert`
(`insert_as`), `on_voter_remove` (`remove`), or the `rebag` call
(`do_rebag`). -/
def applyOp (ts : List Nat) (weight_of : Nat → Nat) (s : State) : Op → State
  | .ins id role => insert_as ts weight_of id role s
  | .rem id => remove id s
  | .reb id => (do_rebag ts weight_of id s).2

/-- Apply a sequence of public operations in order. -/
def applyOps (ts : List Nat) (weight_of : Nat → Nat) (ops : List Op) (s : State) : State :=
  ops.foldl (applyOp ts weight_of) s

/-! ## Association-list lemmas -/

theorem lookup_cons_self {α : Type} {k : Nat} {v : α} {rest : List (Nat × α)} :
    lookup ((k, v) :: rest) k = some v := by
  simp [lookup]

theorem lookup_cons_ne {α : Type} {k k' : Nat} {v : α} {rest : List (Nat × α)}
    (h : k' ≠ k) : lookup ((k', v) :: rest) k = lookup rest k := by
  simp [lookup, h]

theorem replaceKV_cons_self {α : Type} {k : Nat} {v v' : α} {rest : List (Nat × α)} :
    replaceKV k v ((k, v') :: rest) = (k, v) :: replaceKV k v rest := by
  simp [replaceKV]

theorem replaceKV_cons_ne {α : Type} {k k' : Nat} {v v' : α} {rest : List (Nat × α)}
    (h : k' ≠ k) : replaceKV k v ((k', v') :: rest) = (k', v') :: replaceKV k v rest := by
  simp [replaceKV, h]

theorem updateKV_cons_self {α : Type} {k : Nat} {f : α → α} {v' : α} {rest : List (Nat × α)} :
    updateKV k f ((k, v') :: rest) = (k, f v') :: updateKV k f rest := by
  simp [updateKV]

theorem updateKV_cons_ne {α : Type} {k k' : Nat} {f : α → α} {v' : α} {rest : List (Nat × α)}
    (h : k' ≠ k) : updateKV k f ((k', v') :: rest) = (k', v') :: updateKV k f rest := by
  simp [updateKV, h]

theorem removeKV_cons_self {α : Type} {k : Nat} {v' : α} {rest : List (Nat × α)} :
    removeKV k ((k, v') :: rest) = removeKV k rest := by
  simp [removeKV]

theorem removeKV_cons_ne {α : Type} {k k' : Nat} {v' : α} {rest : List (Nat × α)}
    (h : k' ≠ k) : removeKV k ((k', v') :: rest) = (k', v') :: removeKV k rest := by
  simp [removeKV, h]

theorem lookup_eq_none_iff {α : Type} {l : List (Nat × α)} {k : Nat} :
    lookup l k = none ↔ k ∉ l.map Prod.fst := by
  induction l with
  | nil => simp [lookup]
  | cons p rest ih =>
      obtain ⟨k', v⟩ := p
      by_cases h : k' = k
      · subst h
        simp [lookup]
      · simp [lookup, h, ih, eq_comm (a := k) (b := k')]

theorem lookup_isSome_iff {α : Type} {l : List (Nat × α)} {k : Nat} :
    (lookup l k).isSome ↔ k ∈ l.map Prod.fst := by
  rw [Option.isSome_iff_ne_none, Ne, lookup_eq_none_iff, not_not]

theorem lookup_mem {α : Type} {l : List (Nat × α)} {k : Nat} {v : α}
    (h : lookup l k = some v) : (k, v) ∈ l := by
  induction l with
  | nil => simp [lookup] at h
  | cons p rest ih =>
      obtain ⟨k', v'⟩ := p
      by_cases hk : k' = k
      · subst hk
        rw [lookup_cons_self] at h
        cases h
        simp
      · rw [lookup_cons_ne hk] at h
        simp [ih h]

theorem mem_lookup {α : Type} {l : List (Nat × α)} {k : Nat} {v : α}
    (hnd : (l.map Prod.fst).Nodup) (h : (k, v) ∈ l) : lookup l k = some v := by
  induction l with
  | nil => simp at h
  | cons p rest ih =>
      obtain ⟨k', v'⟩ := p
      simp only [List.map_cons, List.nodup_cons] at hnd
      rcases List.mem_cons.mp h with h1 | h1
      · cases h1
        simp [lookup]
      · have hk : k' ≠ k := by
          rintro rfl
          exact hnd.1 (List.mem_map.mpr ⟨(k', v), h1, rfl⟩)
        simp [lookup, hk, ih hnd.2 h1]

theorem lookup_append {α : Type} {l₁ l₂ : List (Nat × α)} {k : Nat} :
    lookup (l₁ ++ l₂) k =
      match lookup l₁ k with
      | some v => some v
      | none => lookup l₂ k := by
  induction l₁ with
  | nil => simp [lookup]
  | cons p rest ih =>
      obtain ⟨k', v'⟩ := p
      by_cases h : k' = k <;> simp [lookup, h, ih]

theorem lookup_replaceKV_self {α : Type} {l : List (Nat × α)} {k : Nat} {v : α}
    (h : (lookup l k).isSome) : lookup (replaceKV k v l) k = some v := by
  induction l with
  | nil => simp [lookup] at h
  | cons p rest ih =>
      obtain ⟨k', v'⟩ := p
      by_cases hk : k' = k
      · subst hk
        simp [replaceKV, lookup]
      · simp only [lookup, if_neg hk] at h
        simp [replaceKV, lookup, hk, ih h]

theorem lookup_replaceKV_ne {α : Type} {l : List (Nat × α)} {k j : Nat} {v : α}
    (h : j ≠ k) : lookup (replaceKV k v l) j = lookup l j := by
  induction l with
  | nil => simp [replaceKV, lookup]
  | cons p rest ih =>
      obtain ⟨k', v'⟩ := p
      by_cases hk : k' = k
      · subst hk
        simp [replaceKV, lookup, Ne.symm h, ih]
      · simp [replaceKV, lookup, hk, ih]

theorem lookup_insertKV_self {α : Type} {l : List (Nat × α)} {k : Nat} {v : α} :
    lookup (insertKV k v l) k = some v := by
  unfold insertKV
  split
  · next hs => exact lookup_replaceKV_self hs
  · next hs =>
      rw [lookup_append]
      have : lookup l k = none := by
        cases h : lookup l k
        · rfl
        · exact absurd (by simp [h]) hs
      simp [this, lookup]

theorem lookup_insertKV_ne {α : Type} {l : List (Nat × α)} {k j : Nat} {v : α}
    (h : j ≠ k) : lookup (insertKV k v l) j = lookup l j := by
  unfold insertKV
  split
  · exact lookup_replaceKV_ne h
  · rw [lookup_append]
    cases hl : lookup l j <;> simp [lookup, h, Ne.symm h]

theorem lookup_updateKV_self {α : Type} {l : List (Nat × α)} {k : Nat} {f : α → α} :
    lookup (updateKV k f l) k = (lookup l k).map f := by
  induction l with
  | nil => simp [lookup, updateKV]
  | cons p rest ih =>
      obtain ⟨k', v'⟩ := p
      by_cases h : k' = k
      · subst h
        simp [updateKV, lookup]
      · simp [updateKV, lookup, h, ih]

theorem lookup_updateKV_ne {α : Type} {l : List (Nat × α)} {k j : Nat} {f : α → α}
    (h : j ≠ k) : lookup (updateKV k f l) j = lookup l j := by
  induction l with
  | nil => simp [lookup, updateKV]
  | cons p rest ih =>
      obtain ⟨k', v'⟩ := p
      by_cases hk : k' = k
      · subst hk
        simp [updateKV, lookup, Ne.symm h, ih]
      · simp [updateKV, lookup, hk, ih]

theorem lookup_removeKV_self {α : Type} {l : List (Nat × α)} {k : Nat} :
    lookup (removeKV k l) k = none := by
  induction l with
  | nil => simp [lookup, removeKV]
  | cons p rest ih =>
      obtain ⟨k', v'⟩ := p
      by_cases hk : k' = k
      · simp [removeKV, hk, ih]
      · simp [removeKV, lookup, hk, ih]

theorem lookup_removeKV_ne {α : Type} {l : List (Nat × α)} {k j : Nat}
    (h : j ≠ k) : lookup (removeKV k l) j = lookup l j := by
  induction l with
  | nil => simp [lookup, removeKV]
  | cons p rest ih =>
      obtain ⟨k', v'⟩ := p
      by_cases hk : k' = k
      · subst hk
        simp [removeKV, lookup, Ne.symm h, ih]
      · simp [removeKV, lookup, hk, ih]

theorem keys_updateKV {α : Type} {l : List (Nat × α)} {k : Nat} {f : α → α} :
    (updateKV k f l).map Prod.fst = l.map Prod.fst := by
  induction l with
  | nil => simp [updateKV]
  | cons p rest ih =>
      obtain ⟨k', v'⟩ := p
      by_cases h : k' = k <;> simp [updateKV, h, ih]

theorem keys_replaceKV {α : Type} {l : List (Nat × α)} {k : Nat} {v : α} :
    (replaceKV k v l).map Prod.fst = l.map Prod.fst := by
  induction l with
  | nil => simp [replaceKV]
  | cons p rest ih =>
      obtain ⟨k', v'⟩ := p
      by_cases h : k' = k
      · subst h
        simp [replaceKV, ih]
      · simp [replaceKV, h, ih]

theorem insertKV_of_not_mem {α : Type} {l : List (Nat × α)} {k : Nat} {v : α}
    (h : lookup l k = none) : insertKV k v l = l ++ [(k, v)] := by
  unfold insertKV
  rw [if_neg]
  simp [h]

theorem insertKV_of_mem {α : Type} {l : List (Nat × α)} {k : Nat} {v : α}
    (h : (lookup l k).isSome) : insertKV k v l = replaceKV k v l := by
  unfold insertKV
  rw [if_pos h]

theorem keys_insertKV_not_mem {α : Type} {l : List (Nat × α)} {k : Nat} {v : α}
    (h : lookup l k = none) :
    (insertKV k v l).map Prod.fst = l.map Prod.fst ++ [k] := by
  rw [insertKV_of_not_mem h]
  simp

theorem keys_insertKV_mem {α : Type} {l : List (Nat × α)} {k : Nat} {v : α}
    (h : (lookup l k).isSome) :
    (insertKV k v l).map Prod.fst = l.map Prod.fst := by
  rw [insertKV_of_mem h, keys_replaceKV]

theorem keys_removeKV {α : Type} {l : List (Nat × α)} {k : Nat} :
    (removeKV k l).map Prod.fst = (l.map Prod.fst).filter (fun x => x ≠ k) := by
  induction l with
  | nil => simp [removeKV]
  | cons p rest ih =>
      obtain ⟨k', v'⟩ := p
      by_cases h : k' = k
      · subst h
        simp [removeKV, List.filter_cons, ih]
      · simp [removeKV, List.filter_cons, h, ih]

theorem removeKV_of_not_mem {α : Type} {l : List (Nat × α)} {k : Nat}
    (h : lookup l k = none) : removeKV k l = l := by
  rw [lookup_eq_none_iff] at h
  induction l with
  | nil => simp [removeKV]
  | cons p rest ih =>
      obtain ⟨k', v'⟩ := p
      simp only [List.map_cons, List.mem_cons, not_or] at h
      have : k' ≠ k := fun hh => h.1 hh.symm
      simp [removeKV, this, ih h.2]

theorem removeKV_append {α : Type} {l₁ l₂ : List (Nat × α)} {k : Nat} :
    removeKV k (l₁ ++ l₂) = removeKV k l₁ ++ removeKV k l₂ := by
  induction l₁ with
  | nil => simp [removeKV]
  | cons p rest ih =>
      obtain ⟨k', v'⟩ := p
      by_cases h : k' = k <;> simp [removeKV, h, ih]

theorem updateKV_append {α : Type} {l₁ l₂ : List (Nat × α)} {k : Nat} {f : α → α} :
    updateKV k f (l₁ ++ l₂) = updateKV k f l₁ ++ updateKV k f l₂ := by
  induction l₁ with
  | nil => simp [updateKV]
  | cons p rest ih =>
      obtain ⟨k', v'⟩ := p
      by_cases h : k' = k <;> simp [updateKV, h, ih]

theorem updateKV_updateKV {α : Type} {l : List (Nat × α)} {k : Nat} {f g : α → α} :
    updateKV k f (updateKV k g l) = updateKV k (fun v => f (g v)) l := by
  induction l with
  | nil => simp [updateKV]
  | cons p rest ih =>
      obtain ⟨k', v'⟩ := p
      by_cases h : k' = k <;> simp [updateKV, h, ih]

theorem updateKV_congr_id {α : Type} {l : List (Nat × α)} {k : Nat} {f : α → α}
    (h : ∀ v, (k, v) ∈ l → f v = v) : updateKV k f l = l := by
  induction l with
  | nil => simp [updateKV]
  | cons p rest ih =>
      obtain ⟨k', v'⟩ := p
      by_cases hk : k' = k
      · subst hk
        rw [updateKV_cons_self, h v' (by simp), ih (fun v hv => h v (by simp [hv]))]
      · rw [updateKV_cons_ne hk, ih (fun v hv => h v (by simp [hv]))]

theorem replaceKV_not_mem {α : Type} {l : List (Nat × α)} {k : Nat} {v : α}
    (h : lookup l k = none) : replaceKV k v l = l := by
  rw [lookup_eq_none_iff] at h
  induction l with
  | nil => simp [replaceKV]
  | cons p rest ih =>
      obtain ⟨k', v'⟩ := p
      simp only [List.map_cons, List.mem_cons, not_or] at h
      have hne : k' ≠ k := fun hh => h.1 hh.symm
      simp [replaceKV, hne, ih h.2]

theorem replaceKV_self_eq {α : Type} {l : List (Nat × α)} {k : Nat} {v : α}
    (hnd : (l.map Prod.fst).Nodup) (h : lookup l k = some v) : replaceKV k v l = l := by
  induction l with
  | nil => simp [replaceKV]
  | cons p rest ih =>
      obtain ⟨k', v'⟩ := p
      simp only [List.map_cons, List.nodup_cons] at hnd
      by_cases hk : k' = k
      · subst hk
        rw [lookup_cons_self] at h
        cases h
        have hrest : lookup rest k' = none := lookup_eq_none_iff.mpr hnd.1
        rw [replaceKV_cons_self, replaceKV_not_mem hrest]
      · rw [lookup_cons_ne hk] at h
        rw [replaceKV_cons_ne hk, ih hnd.2 h]

theorem insertKV_self_eq {α : Type} {l : List (Nat × α)} {k : Nat} {v : α}
    (hnd : (l.map Prod.fst).Nodup) (h : lookup l k = some v) : insertKV k v l = l := by
  rw [insertKV_of_mem (by simp [h]), replaceKV_self_eq hnd h]

theorem length_insertKV_not_mem {α : Type} {l : List (Nat × α)} {k : Nat} {v : α}
    (h : lookup l k = none) : (insertKV k v l).length = l.length + 1 := by
  rw [insertKV_of_not_mem h]
  simp

theorem length_replaceKV {α : Type} {l : List (Nat × α)} {k : Nat} {v : α} :
    (replaceKV k v l).length = l.length := by
  induction l with
  | nil => simp [replaceKV]
  | cons p rest ih =>
      obtain ⟨k', v'⟩ := p
      by_cases h : k' = k
      · subst h
        simp [replaceKV_cons_self, ih]
      · simp [replaceKV_cons_ne h, ih]

theorem length_removeKV_mem {α : Type} {l : List (Nat × α)} {k : Nat} {v : α}
    (hnd : (l.map Prod.fst).Nodup) (h : lookup l k = some v) :
    (removeKV k l).length + 1 = l.length := by
  induction l with
  | nil => simp [lookup] at h
  | cons p rest ih =>
      obtain ⟨k', v'⟩ := p
      simp only [List.map_cons, List.nodup_cons] at hnd
      by_cases hk : k' = k
      · subst hk
        have hrest : lookup rest k' = none := lookup_eq_none_iff.mpr hnd.1
        simp [removeKV, removeKV_of_not_mem hrest]
      · rw [lookup_cons_ne hk] at h
        rw [removeKV_cons_ne hk]
        simp only [List.length_cons]
        rw [ih hnd.2 h]

theorem removeKV_insertKV_not_mem {α : Type} {l : List (Nat × α)} {k : Nat} {v : α}
    (h : lookup l k = none) : removeKV k (insertKV k v l) = l := by
  rw [insertKV_of_not_mem h, removeKV_append, removeKV_of_not_mem h]
  simp [removeKV]

/-! ## Band-resolution lemmas -/

theorem resolve_nil {w : Nat} : resolve [] w = MAXW := rfl

theorem resolve_cons_le {ts : List Nat} {t w : Nat} (h : w ≤ t) :
    resolve (t :: ts) w = t := by
  simp [resolve, List.find?_cons, h]

theorem resolve_cons_gt {ts : List Nat} {t w : Nat} (h : ¬ w ≤ t) :
    resolve (t :: ts) w = resolve ts w := by
  simp [resolve, List.find?_cons, h]

theorem resolve_mem_or_max (ts : List Nat) (w : Nat) :
    resolve ts w ∈ ts ∨ resolve ts w = MAXW := by
  induction ts with
  | nil => right; rfl
  | cons t rest ih =>
      by_cases h : w ≤ t
      · left
        rw [resolve_cons_le h]
        simp
      · rw [resolve_cons_gt h]
        rcases ih with h1 | h1
        · left
          simp [h1]
        · right
          exact h1

theorem le_resolve (ts : List Nat) (w t : Nat) (hall : ∀ x ∈ ts, t ≤ x)
    (hmax : t ≤ MAXW) : t ≤ resolve ts w := by
  rcases resolve_mem_or_max ts w with h | h
  · exact hall _ h
  · rw [h]
    exact hmax

theorem w_le_resolve_of_exists (ts : List Nat) (w : Nat) (t : Nat) (ht : t ∈ ts)
    (hw : w ≤ t) : w ≤ resolve ts w := by
  induction ts with
  | nil => simp at ht
  | cons x rest ih =>
      by_cases h : w ≤ x
      · rw [resolve_cons_le h]
        exact h
      · rw [resolve_cons_gt h]
        rcases List.mem_cons.mp ht with rfl | hmem
        · exact absurd hw h
        · exact ih hmem

theorem resolve_append_max {ts : List Nat} {w : Nat} (hw : w ≤ MAXW) :
    resolve (ts ++ [MAXW]) w = resolve ts w := by
  induction ts with
  | nil => simp [resolve, List.find?_cons, hw]
  | cons t rest ih =>
      by_cases h : w ≤ t
      · rw [List.cons_append, resolve_cons_le h, resolve_cons_le h]
      · rw [List.cons_append, resolve_cons_gt h, resolve_cons_gt h, ih]

/-! ## Claims about band resolution -/

/-- C2: band resolution maps `w` to the smallest threshold `t ≥ w` of the
table; when no threshold is at least `w` (in particular for the empty
table), the weight resolves to the implicit final band with upper bound
`VoteWeight::MAX`. -/
theorem c2_band_resolution (ts : List Nat) (w : Nat)
    (hts : List.Pairwise (· < ·) ts) :
    ((∀ t ∈ ts, t < w) → resolve ts w = MAXW) ∧
    (∀ t ∈ ts, w ≤ t →
      resolve ts w ∈ ts ∧ w ≤ resolve ts w ∧ resolve ts w ≤ t) := by
  induction ts with
  | nil => simp [resolve_nil]
  | cons x rest ih =>
      rcases List.pairwise_cons.mp hts with ⟨hx, hrest⟩
      refine ⟨?_, ?_⟩
      · intro hall
        have hxw : ¬ w ≤ x := by
          have := hall x (by simp)
          omega
        rw [resolve_cons_gt hxw]
        exact (ih hrest).1 (fun t ht => hall t (by simp [ht]))
      · intro t ht hwt
        by_cases h : w ≤ x
        · rw [resolve_cons_le h]
          refine ⟨by simp, h, ?_⟩
          rcases List.mem_cons.mp ht with rfl | hmem
          · exact le_refl _
          · exact le_of_lt (hx t hmem)
        · rw [resolve_cons_gt h]
          rcases List.mem_cons.mp ht with rfl | hmem
          · exact absurd hwt h
          · rcases (ih hrest).2 t hmem hwt with ⟨h1, h2, h3⟩
            exact ⟨by simp [h1], h2, h3⟩

/-- Witness for C2 at the table `[10, 20]` and weight `15`. -/
theorem c2_band_resolution_witness :
    List.Pairwise (· < ·) [10, 20] ∧
    (((∀ t ∈ [10, 20], t < 15) → resolve [10, 20] 15 = MAXW) ∧
      (∀ t ∈ [10, 20], 15 ≤ t →
        resolve [10, 20] 15 ∈ [10, 20] ∧ 15 ≤ resolve [10, 20] 15 ∧
          resolve [10, 20] 15 ≤ t)) :=
  ⟨by decide, c2_band_resolution [10, 20] 15 (by decide)⟩

/-- C8: band resolution is monotone in the weight for any fixed table of
representable (`≤ VoteWeight::MAX`) thresholds. -/
theorem c8_resolve_monotone (ts : List Nat) (w1 w2 : Nat)
    (hts : List.Pairwise (· < ·) ts) (hmax : ∀ t ∈ ts, t ≤ MAXW)
    (h : w1 ≤ w2) : resolve ts w1 ≤ resolve ts w2 := by
  induction ts with
  | nil => simp [resolve_nil]
  | cons x rest ih =>
      rcases List.pairwise_cons.mp hts with ⟨hx, hrest⟩
      by_cases h2 : w2 ≤ x
      · have h1 : w1 ≤ x := le_trans h h2
        rw [resolve_cons_le h1, resolve_cons_le h2]
      · rw [resolve_cons_gt h2]
        by_cases h1 : w1 ≤ x
        · rw [resolve_cons_le h1]
          exact le_resolve rest w2 x (fun t ht => le_of_lt (hx t ht))
            (hmax x (by simp))
        · rw [resolve_cons_gt h1]
          exact ih hrest (fun t ht => hmax t (by simp [ht]))

/-- Witness for C8 at the table `[10, 20]` and weights `5 ≤ 15`. -/
theorem c8_resolve_monotone_witness :
    List.Pairwise (· < ·) [10, 20] ∧ (5 : Nat) ≤ 15 ∧
      resolve [10, 20] 5 ≤ resolve [10, 20] 15 :=
  ⟨by decide, by decide,
    c8_resolve_monotone [10, 20] 5 15 (by decide) (by decide) (by decide)⟩

/-! ## Claims about the no-movement paths of rebag and remove -/

/-- C5: when the voter's current weight still resolves to its stored band,
`do_rebag` reports "no movement" and leaves the storage byte-for-byte
unchanged — no node, bag, counter or event is written. -/
theorem c5_rebag_same_band_noop (ts : List Nat) (weight_of : Nat → Nat)
    (id : Nat) (s : State) (n : Node) (hn : lookup s.nodes id = some n)
    (heq : resolve ts (weight_of id) = n.bag_upper) :
    do_rebag ts weight_of id s = (none, s) := by
  unfold do_rebag update_position_for
  rw [hn]
  simp [heq.symm]

/-- Witness for C5: a one-voter state whose weight still resolves to its
band. -/
theorem c5_rebag_same_band_noop_witness :
    lookup (insert_as [10, 20] (fun _ => 5) 1 .validator emptyState).nodes 1 =
      some ⟨1, none, none, 10, .validator⟩ ∧
    resolve [10, 20] 5 = 10 ∧
    do_rebag [10, 20] (fun _ => 5) 1
      (insert_as [10, 20] (fun _ => 5) 1 .validator emptyState) =
      (none, insert_as [10, 20] (fun _ => 5) 1 .validator emptyState) :=
  ⟨by decide, by decide,
    c5_rebag_same_band_noop [10, 20] (fun _ => 5) 1
      (insert_as [10, 20] (fun _ => 5) 1 .validator emptyState)
      ⟨1, none, none, 10, .validator⟩ (by decide) (by decide)⟩

/-- C6: for an identity with no node, both `do_rebag` and `remove` are total
no-ops: "no movement" is returned, no event is deposited, and no record is
mutated. -/
theorem c6_absent_noop (ts : List Nat) (weight_of : Nat → Nat) (id : Nat)
    (s : State) (h : lookup s.nodes id = none) :
    do_rebag ts weight_of id s = (none, s) ∧ remove id s = s := by
  constructor
  · unfold do_rebag update_position_for
    rw [h]
  · unfold remove
    rw [h]

/-- Witness for C6: identity `7` is absent from the one-voter state. -/
theorem c6_absent_noop_witness :
    lookup (insert_as [10, 20] (fun _ => 5) 1 .validator emptyState).nodes 7 =
      none ∧
    do_rebag [10, 20] (fun _ => 5) 7
        (insert_as [10, 20] (fun _ => 5) 1 .validator emptyState) =
      (none, insert_as [10, 20] (fun _ => 5) 1 .validator emptyState) ∧
    remove 7 (insert_as [10, 20] (fun _ => 5) 1 .validator emptyState) =
      insert_as [10, 20] (fun _ => 5) 1 .validator emptyState := by
  refine ⟨by decide, ?_⟩
  have := c6_absent_noop [10, 20] (fun _ => 5) 7
    (insert_as [10, 20] (fun _ => 5) 1 .validator emptyState) (by decide)
  exact this

/-! ## Trailing `VoteWeight::MAX` threshold is immaterial (C10) -/

theorem bagUppers_append_max {ts : List Nat} (h : ts.getLast? ≠ some MAXW) :
    bagUppers (ts ++ [MAXW]) = bagUppers ts := by
  unfold bagUppers
  rw [if_pos, if_neg h]
  rw [List.getLast?_concat]

theorem insert_as_append_max {ts : List Nat} {weight_of : Nat → Nat} {id : Nat}
    {role : VoterType} {s : State} (hw : weight_of id ≤ MAXW) :
    insert_as (ts ++ [MAXW]) weight_of id role s = insert_as ts weight_of id role s := by
  unfold insert_as
  rw [resolve_append_max hw]

theorem update_position_for_append_max {ts : List Nat} {weight_of : Nat → Nat}
    {id : Nat} {s : State} (hw : weight_of id ≤ MAXW) :
    update_position_for (ts ++ [MAXW]) weight_of id s =
      update_position_for ts weight_of id s := by
  unfold update_position_for
  rw [resolve_append_max hw]

theorem do_rebag_append_max {ts : List Nat} {weight_of : Nat → Nat}
    {id : Nat} {s : State} (hw : weight_of id ≤ MAXW) :
    do_rebag (ts ++ [MAXW]) weight_of id s = do_rebag ts weight_of id s := by
  unfold do_rebag
  rw [update_position_for_append_max hw]

theorem applyOp_append_max {ts : List Nat} {weight_of : Nat → Nat} {s : State}
    {op : Op} (hw : ∀ i, weight_of i ≤ MAXW) :
    applyOp (ts ++ [MAXW]) weight_of s op = applyOp ts weight_of s op := by
  cases op with
  | ins id role => exact insert_as_append_max (hw id)
  | rem id => rfl
  | reb id =>
      show (do_rebag (ts ++ [MAXW]) weight_of id s).2 = (do_rebag ts weight_of id s).2
      rw [do_rebag_append_max (hw id)]

theorem applyOps_append_max {ts : List Nat} {weight_of : Nat → Nat}
    {ops : List Op} {s : State} (hw : ∀ i, weight_of i ≤ MAXW) :
    applyOps (ts ++ [MAXW]) weight_of ops s = applyOps ts weight_of ops s := by
  induction ops generalizing s with
  | nil => rfl
  | cons op rest ih =>
      show applyOps _ _ rest (applyOp _ _ s op) = applyOps _ _ rest (applyOp _ _ s op)
      rw [applyOp_append_max hw, ih]

/-- C10: a threshold table and the same table with an extra trailing
`VoteWeight::MAX` behave identically: every sequence of insert / remove /
rebag operations produces the same storage, rebag returns the same result,
and iteration visits the same sequence of voters. -/
theorem c10_trailing_max_equiv (ts : List Nat) (weight_of : Nat → Nat)
    (ops : List Op) (s : State) (id : Nat)
    (hlast : ts.getLast? ≠ some MAXW) (hw : ∀ i, weight_of i ≤ MAXW) :
    applyOps (ts ++ [MAXW]) weight_of ops s = applyOps ts weight_of ops s ∧
    do_rebag (ts ++ [MAXW]) weight_of id s = do_rebag ts weight_of id s ∧
    iterIds (ts ++ [MAXW]) s = iterIds ts s := by
  refine ⟨applyOps_append_max hw, do_rebag_append_max (hw id), ?_⟩
  unfold iterIds
  rw [bagUppers_append_max hlast]

/-- A fixed weight oracle used by concrete witnesses. -/
def woSeven : Nat → Nat := fun _ => 7

theorem woSeven_le_max : ∀ i, woSeven i ≤ MAXW := by
  intro i
  show (7 : Nat) ≤ MAXW
  decide

/-- Witness for C10: table `[10, 20]` against `[10, 20, MAX]` on a small
operation sequence. -/
theorem c10_trailing_max_equiv_witness :
    ([10, 20] : List Nat).getLast? ≠ some MAXW ∧
    (applyOps ([10, 20] ++ [MAXW]) woSeven
        [Op.ins 1 .validator, Op.ins 2 .nominator, Op.rem 1] emptyState =
      applyOps [10, 20] woSeven
        [Op.ins 1 .validator, Op.ins 2 .nominator, Op.rem 1] emptyState ∧
    do_rebag ([10, 20] ++ [MAXW]) woSeven 1 emptyState =
      do_rebag [10, 20] woSeven 1 emptyState ∧
    iterIds ([10, 20] ++ [MAXW]) emptyState = iterIds [10, 20] emptyState) :=
  ⟨by decide,
    c10_trailing_max_equiv [10, 20] woSeven
      [Op.ins 1 .validator, Op.ins 2 .nominator, Op.rem 1] emptyState 1
      (by decide) woSeven_le_max⟩

/-! ## Chain lemmas -/

theorem nextPtr_nil {d : Option Nat} : nextPtr [] d = d := rfl

theorem nextPtr_cons {j : Nat} {l : List Nat} {d : Option Nat} :
    nextPtr (j :: l) d = some j := rfl

theorem nextPtr_append {l₁ l₂ : List Nat} {d : Option Nat} :
    nextPtr (l₁ ++ l₂) d = nextPtr l₁ (nextPtr l₂ d) := by
  cases l₁ <;> rfl

theorem nextPtr_eq_head? {l : List Nat} : nextPtr l none = l.head? := by
  cases l <;> rfl

theorem lastPtr_nil {p : Option Nat} : lastPtr p [] = p := rfl

theorem lastPtr_cons {p : Option Nat} {i : Nat} {l : List Nat} :
    lastPtr p (i :: l) = lastPtr (some i) l := by
  cases l with
  | nil => rfl
  | cons j l' =>
      unfold lastPtr
      rw [List.getLast?_cons_cons]
      cases h : (j :: l').getLast? with
      | none => exact absurd h (by simp)
      | some x => rfl

theorem lastPtr_append {p : Option Nat} {l₁ l₂ : List Nat} :
    lastPtr p (l₁ ++ l₂) = lastPtr (lastPtr p l₁) l₂ := by
  induction l₁ generalizing p with
  | nil => rfl
  | cons i l₁' ih => rw [List.cons_append, lastPtr_cons, lastPtr_cons, ih]

theorem lastPtr_concat {p : Option Nat} {l : List Nat} {i : Nat} :
    lastPtr p (l ++ [i]) = some i := by
  rw [lastPtr_append]
  rfl

theorem checkLinks_nil {nodes : List (Nat × Node)} {u : Nat} {p d : Option Nat} :
    checkLinks nodes u p [] d = true := rfl

theorem checkLinks_cons_iff {nodes : List (Nat × Node)} {u : Nat}
    {p d : Option Nat} {i : Nat} {l : List Nat} :
    checkLinks nodes u p (i :: l) d = true ↔
      ∃ n, lookup nodes i = some n ∧ n.id = i ∧ n.bag_upper = u ∧ n.prev = p ∧
        n.next = nextPtr l d ∧ checkLinks nodes u (some i) l d = true := by
  cases h : lookup nodes i with
  | none => simp [checkLinks, h]
  | some n => simp [checkLinks, h, Bool.and_eq_true, decide_eq_true_eq, and_assoc]

theorem checkLinks_congr {nodes nodes' : List (Nat × Node)} {u : Nat}
    {p d : Option Nat} {l : List Nat}
    (h : ∀ x ∈ l, lookup nodes' x = lookup nodes x) :
    checkLinks nodes' u p l d = checkLinks nodes u p l d := by
  induction l generalizing p with
  | nil => rfl
  | cons i l' ih =>
      unfold checkLinks
      rw [h i (by simp)]
      cases lookup nodes i with
      | none => rfl
      | some n => rw [ih (fun x hx => h x (by simp [hx]))]

theorem checkLinks_append {nodes : List (Nat × Node)} {u : Nat}
    {p d : Option Nat} {l₁ l₂ : List Nat} :
    checkLinks nodes u p (l₁ ++ l₂) d =
      (checkLinks nodes u p l₁ (nextPtr l₂ d) &&
        checkLinks nodes u (lastPtr p l₁) l₂ d) := by
  induction l₁ generalizing p with
  | nil => simp [checkLinks_nil, lastPtr_nil]
  | cons i l₁' ih =>
      rw [List.cons_append, lastPtr_cons]
      cases h : lookup nodes i with
      | none => simp [checkLinks, h]
      | some n =>
          simp only [checkLinks, h]
          rw [ih, nextPtr_append]
          simp [Bool.and_assoc]

theorem chainFrom_of_checkLinks {nodes : List (Nat × Node)} {u : Nat}
    {p : Option Nat} {l : List Nat} {fuel : Nat}
    (h : checkLinks nodes u p l none = true) (hf : l.length ≤ fuel) :
    chainFrom nodes fuel l.head? = l := by
  induction l generalizing p fuel with
  | nil => cases fuel <;> rfl
  | cons i l' ih =>
      obtain ⟨n, hn, _, _, _, hnext, hrec⟩ := checkLinks_cons_iff.mp h
      cases fuel with
      | zero => simp at hf
      | succ f =>
          show chainFrom nodes (f + 1) (some i) = i :: l'
          simp only [chainFrom, hn]
          rw [hnext, nextPtr_eq_head?, ih hrec (by simpa using hf)]

theorem checkLinks_mem {nodes : List (Nat × Node)} {u : Nat}
    {p d : Option Nat} {l : List Nat} {x : Nat}
    (h : checkLinks nodes u p l d = true) (hx : x ∈ l) :
    ∃ n, lookup nodes x = some n ∧ n.id = x ∧ n.bag_upper = u := by
  induction l generalizing p with
  | nil => simp at hx
  | cons i l' ih =>
      obtain ⟨n, hn, hid, hu, _, _, hrec⟩ := checkLinks_cons_iff.mp h
      rcases List.mem_cons.mp hx with rfl | hx'
      · exact ⟨n, hn, hid, hu⟩
      · exact ih hrec hx'

theorem checkLinks_subset_keys {nodes : List (Nat × Node)} {u : Nat}
    {p d : Option Nat} {l : List Nat}
    (h : checkLinks nodes u p l d = true) : l ⊆ nodes.map Prod.fst := by
  intro x hx
  obtain ⟨n, hn, _, _⟩ := checkLinks_mem h hx
  exact lookup_isSome_iff.mp (by simp [hn])

/-! ## Characterisation of the sanity check -/

structure SanityProps (s : State) : Prop where
  counter_eq : s.counter = s.nodes.length
  nodes_nodup : (s.nodes.map Prod.fst).Nodup
  bags_nodup : (s.bags.map Prod.fst).Nodup
  bagFor_nodup : (s.bagFor.map Prod.fst).Nodup
  bagFor_len : s.bagFor.length = s.nodes.length
  node_records : ∀ p ∈ s.nodes, p.2.id = p.1 ∧ lookup s.bagFor p.1 = some p.2.bag_upper
  bags_ok : ∀ p ∈ s.bags, checkBag s.nodes s.nodes.length p.1 p.2 = true
  chains_nodup : (chainsOf s).flatten.Nodup
  chains_len : (chainsOf s).flatten.length = s.nodes.length

theorem sanity_check_ok_iff {s : State} :
    sanity_check s = Except.ok () ↔ SanityProps s := by
  constructor
  · intro h
    unfold sanity_check at h
    split_ifs at h with h1 h2 h3 h4 h5 h6 h7 h8 h9
    refine ⟨by omega, h2, h3, h4, by omega, ?_, ?_, h8, by omega⟩
    · simp only [List.all_eq_true, Bool.and_eq_true, decide_eq_true_eq] at h6
      exact h6
    · simp only [List.all_eq_true] at h7
      exact h7
  · intro sp
    have hall1 : (s.nodes.all fun p =>
        decide (p.2.id = p.1) && decide (lookup s.bagFor p.1 = some p.2.bag_upper)) = true := by
      simp only [List.all_eq_true, Bool.and_eq_true, decide_eq_true_eq]
      exact sp.node_records
    have hall2 : (s.bags.all fun p => checkBag s.nodes s.nodes.length p.1 p.2) = true := by
      simp only [List.all_eq_true]
      exact sp.bags_ok
    unfold sanity_check
    rw [if_neg (by simp [sp.counter_eq]),
        if_neg (not_not_intro sp.nodes_nodup),
        if_neg (not_not_intro sp.bags_nodup),
        if_neg (not_not_intro sp.bagFor_nodup),
        if_neg (by simp [sp.bagFor_len]),
        if_neg (not_not_intro hall1),
        if_neg (not_not_intro hall2),
        if_neg (not_not_intro sp.chains_nodup),
        if_neg (by simp [sp.chains_len])]

/-! ## Facts derived from a sane state -/

theorem bagMembers_eq_chain {s : State} {u : Nat} {b : Bag}
    (hb : lookup s.bags u = some b) :
    bagMembers s u = chainFrom s.nodes s.nodes.length b.head := by
  unfold bagMembers
  rw [hb]

theorem ne_nil_of_not_isEmpty {l : List Nat} (h : (!l.isEmpty) = true) : l ≠ [] := by
  cases l with
  | nil => simp [List.isEmpty] at h
  | cons a l' => exact List.cons_ne_nil a l'

theorem sanity_bag_chain {s : State} (sp : SanityProps s) {u : Nat} {b : Bag}
    (hb : lookup s.bags u = some b) :
    bagMembers s u ≠ [] ∧
    b.head = (bagMembers s u).head? ∧
    b.tail = (bagMembers s u).getLast? ∧
    checkLinks s.nodes u none (bagMembers s u) none = true := by
  have hmem := lookup_mem hb
  have hok := sp.bags_ok (u, b) hmem
  unfold checkBag at hok
  simp only [Bool.and_eq_true, decide_eq_true_eq] at hok
  obtain ⟨⟨⟨hne, hhead⟩, htail⟩, hlinks⟩ := hok
  rw [bagMembers_eq_chain hb]
  exact ⟨ne_nil_of_not_isEmpty hne, hhead, htail, hlinks⟩

theorem sanity_chain_mem_chainsOf {s : State} {u : Nat} {b : Bag}
    (hb : lookup s.bags u = some b) :
    chainFrom s.nodes s.nodes.length b.head ∈ chainsOf s := by
  exact List.mem_map.mpr ⟨(u, b), lookup_mem hb, rfl⟩

theorem sanity_chains_subset {s : State} (sp : SanityProps s) :
    (chainsOf s).flatten ⊆ s.nodes.map Prod.fst := by
  intro x hx
  rcases List.mem_flatten.mp hx with ⟨c, hc, hxc⟩
  rcases List.mem_map.mp hc with ⟨p, hp, rfl⟩
  have hok := sp.bags_ok p hp
  unfold checkBag at hok
  simp only [Bool.and_eq_true, decide_eq_true_eq] at hok
  exact checkLinks_subset_keys hok.2 hxc

theorem sanity_chains_perm {s : State} (sp : SanityProps s) :
    (chainsOf s).flatten.Perm (s.nodes.map Prod.fst) := by
  refine (sp.chains_nodup.subperm (sanity_chains_subset sp)).perm_of_length_le ?_
  rw [sp.chains_len, List.length_map]

theorem sanity_mem_flatten {s : State} (sp : SanityProps s) {id : Nat}
    (h : id ∈ s.nodes.map Prod.fst) : id ∈ (chainsOf s).flatten :=
  (sanity_chains_perm sp).mem_iff.mpr h

theorem sanity_node_in_own_bag {s : State} (sp : SanityProps s) {id : Nat} {n : Node}
    (hn : lookup s.nodes id = some n) :
    ∃ b, lookup s.bags n.bag_upper = some b ∧ id ∈ bagMembers s n.bag_upper := by
  have hid : id ∈ s.nodes.map Prod.fst := lookup_isSome_iff.mp (by simp [hn])
  have hfl := sanity_mem_flatten sp hid
  rcases List.mem_flatten.mp hfl with ⟨c, hc, hxc⟩
  rcases List.mem_map.mp hc with ⟨p, hp, rfl⟩
  have hok := sp.bags_ok p hp
  unfold checkBag at hok
  simp only [Bool.and_eq_true, decide_eq_true_eq] at hok
  obtain ⟨m, hm, hmid, hmu⟩ := checkLinks_mem hok.2 hxc
  have hmn : m = n := by
    rw [hn] at hm
    exact (Option.some.inj hm).symm
  subst hmn
  have hlb : lookup s.bags p.1 = some p.2 := mem_lookup sp.bags_nodup (by simpa using hp)
  refine ⟨p.2, ?_, ?_⟩
  · rw [hmu]
    exact hlb
  · rw [hmu, bagMembers_eq_chain hlb]
    exact hxc

theorem sanity_chains_pairwise_disjoint {s : State} (sp : SanityProps s) :
    ∀ p ∈ s.bags, ∀ q ∈ s.bags, p ≠ q →
      ∀ x ∈ chainFrom s.nodes s.nodes.length p.2.head,
        x ∉ chainFrom s.nodes s.nodes.length q.2.head := by
  have hnd := sp.chains_nodup
  rw [List.nodup_flatten] at hnd
  have hpair : (chainsOf s).Pairwise List.Disjoint := hnd.2
  unfold chainsOf at hpair
  rw [List.pairwise_map] at hpair
  intro p hp q hq hne x hxp hxq
  have hsym : Symmetric (fun a b : Nat × Bag =>
      (chainFrom s.nodes s.nodes.length a.2.head).Disjoint
        (chainFrom s.nodes s.nodes.length b.2.head)) :=
    fun a b h => List.Disjoint.symm h
  exact (hpair.forall hsym hp hq hne) hxp hxq

/-! ## Unlinking lemmas -/

theorem exists_concat_of_getLast? {l : List Nat} {a : Nat}
    (h : l.getLast? = some a) : ∃ l', l = l' ++ [a] := by
  induction l with
  | nil => simp at h
  | cons x rest ih =>
      cases rest with
      | nil =>
          simp only [List.getLast?_singleton, Option.some.injEq] at h
          exact ⟨[], by simp [h]⟩
      | cons y t =>
          rw [List.getLast?_cons_cons] at h
          obtain ⟨l', hl'⟩ := ih h
          exact ⟨x :: l', by rw [hl']; rfl⟩

theorem nodup_subset_length_le {l₁ l₂ : List Nat} (hnd : l₁.Nodup)
    (hsub : l₁ ⊆ l₂) : l₁.length ≤ l₂.length :=
  (hnd.subperm hsub).length_le

theorem lookup_unlinkNodes_self {nodes : List (Nat × Node)} {id : Nat} {n : Node} :
    lookup (unlinkNodes id n nodes) id = none := by
  unfold unlinkNodes
  exact lookup_removeKV_self

theorem lookup_unlinkNodes_of_ne {nodes : List (Nat × Node)} {id x : Nat} {n : Node}
    (hx : x ≠ id) (hp : n.prev ≠ some x) (hq : n.next ≠ some x) :
    lookup (unlinkNodes id n nodes) x = lookup nodes x := by
  unfold unlinkNodes
  rw [lookup_removeKV_ne hx]
  rcases hpv : n.prev with _ | p <;> rcases hnv : n.next with _ | q <;>
    simp only [hpv, hnv]
  · rw [lookup_updateKV_ne (fun hh => hq (by rw [hnv, hh]))]
  · rw [lookup_updateKV_ne (fun hh => hp (by rw [hpv, hh]))]
  · rw [lookup_updateKV_ne (fun hh => hq (by rw [hnv, hh])),
      lookup_updateKV_ne (fun hh => hp (by rw [hpv, hh]))]

theorem lookup_unlinkNodes_prev {nodes : List (Nat × Node)} {id p₀ : Nat} {n : Node}
    (hpv : n.prev = some p₀) (hx : p₀ ≠ id) (hq : n.next ≠ some p₀) :
    lookup (unlinkNodes id n nodes) p₀ =
      (lookup nodes p₀).map (fun m => { m with next := n.next }) := by
  unfold unlinkNodes
  rw [lookup_removeKV_ne hx]
  rcases hnv : n.next with _ | q <;> simp only [hpv, hnv]
  · rw [lookup_updateKV_self]
  · rw [lookup_updateKV_ne (fun hh => hq (by rw [hnv, hh])), lookup_updateKV_self]

theorem lookup_unlinkNodes_next {nodes : List (Nat × Node)} {id q₀ : Nat} {n : Node}
    (hnv : n.next = some q₀) (hx : q₀ ≠ id) (hp : n.prev ≠ some q₀) :
    lookup (unlinkNodes id n nodes) q₀ =
      (lookup nodes q₀).map (fun m => { m with prev := n.prev }) := by
  unfold unlinkNodes
  rw [lookup_removeKV_ne hx]
  rcases hpv : n.prev with _ | p <;> simp only [hpv, hnv]
  · rw [lookup_updateKV_self]
  · rw [lookup_updateKV_self, lookup_updateKV_ne (fun hh => hp (by rw [hpv, hh]))]

theorem keys_unlinkNodes {nodes : List (Nat × Node)} {id : Nat} {n : Node} :
    (unlinkNodes id n nodes).map Prod.fst =
      (nodes.map Prod.fst).filter (fun x => x ≠ id) := by
  unfold unlinkNodes
  rcases n.prev with _ | p <;> rcases n.next with _ | q <;>
    simp only [keys_removeKV, keys_updateKV]

/-- Unlinking a member from a well-formed chain leaves a well-formed chain
on the remaining members. -/
theorem checkLinks_unlink {nodes : List (Nat × Node)} {u : Nat}
    {l₁ l₂ : List Nat} {id : Nat} {n : Node}
    (hnd : (l₁ ++ id :: l₂).Nodup)
    (hcl : checkLinks nodes u none (l₁ ++ id :: l₂) none = true)
    (hn : lookup nodes id = some n) :
    checkLinks (unlinkNodes id n nodes) u none (l₁ ++ l₂) none = true := by
  rw [checkLinks_append, Bool.and_eq_true] at hcl
  obtain ⟨hA1, hA2⟩ := hcl
  rw [nextPtr_cons] at hA1
  obtain ⟨n', hn', hnid, hnu, hnprev, hnnext, hA3⟩ := checkLinks_cons_iff.mp hA2
  rw [hn] at hn'
  cases Option.some.inj hn'
  rw [List.nodup_append] at hnd
  obtain ⟨hnd₁, hndr, hdisj⟩ := hnd
  rw [List.nodup_cons] at hndr
  obtain ⟨hid_l₂, hnd₂⟩ := hndr
  have hid_l₁ : id ∉ l₁ := fun hmem => hdisj hmem (by simp)
  rw [checkLinks_append, Bool.and_eq_true]
  rcases List.eq_nil_or_concat' l₁ with rfl | ⟨l₁', p₀, rfl⟩
  · -- no predecessor
    have hprev_none : n.prev = none := by rw [hnprev]; rfl
    refine ⟨checkLinks_nil, ?_⟩
    cases l₂ with
    | nil => exact checkLinks_nil
    | cons q₀ l₂' =>
        have hnext_q : n.next = some q₀ := by rw [hnnext]; rfl
        obtain ⟨nq, hnq, hqid, hqu, hqprev, hqnext, hA3'⟩ := checkLinks_cons_iff.mp hA3
        have hq_ne_id : q₀ ≠ id := by
          intro hh
          exact hid_l₂ (hh ▸ List.mem_cons_self q₀ l₂')
        have hq_not_l₂' : q₀ ∉ l₂' := (List.nodup_cons.mp hnd₂).1
        rw [checkLinks_cons_iff]
        refine ⟨{ nq with prev := n.prev }, ?_, hqid, hqu, ?_, ?_, ?_⟩
        · rw [lookup_unlinkNodes_next hnext_q hq_ne_id
            (by rw [hprev_none]; exact Option.noConfusion), hnq]
          rfl
        · show n.prev = lastPtr none []
          rw [hprev_none]
          rfl
        · show nq.next = nextPtr l₂' none
          exact hqnext
        · rw [checkLinks_congr]
          · exact hA3'
          · intro x hx
            refine lookup_unlinkNodes_of_ne ?_ ?_ ?_
            · intro hh
              exact hid_l₂ (hh ▸ List.mem_cons_of_mem q₀ hx)
            · rw [hprev_none]
              exact Option.noConfusion
            · rw [hnext_q]
              intro hh
              exact hq_not_l₂' ((Option.some.inj hh) ▸ hx)
  · -- predecessor p₀ = last of l₁
    have hprev_p : n.prev = some p₀ := by rw [hnprev, lastPtr_concat]
    have hp_ne_id : p₀ ≠ id := by
      intro hh
      exact hid_l₁ (hh ▸ (by simp : p₀ ∈ l₁' ++ [p₀]))
    rw [List.nodup_append] at hnd₁
    obtain ⟨hnd₁', hnds, hdisj₁⟩ := hnd₁
    have hp_not_l₁' : p₀ ∉ l₁' := fun hmem => hdisj₁ hmem (by simp)
    have hp_not_l₂ : p₀ ∉ id :: l₂ := hdisj (by simp : p₀ ∈ l₁' ++ [p₀])
    rw [checkLinks_append, Bool.and_eq_true] at hA1
    obtain ⟨hD1, hD2⟩ := hA1
    obtain ⟨np, hnp, hpid, hpu, hpprev, hpnext, _⟩ := checkLinks_cons_iff.mp hD2
    have hlook_p : lookup (unlinkNodes id n nodes) p₀ =
        some { np with next := n.next } := by
      rw [lookup_unlinkNodes_prev hprev_p hp_ne_id ?hne, hnp]
      · rfl
      case hne =>
        rw [hnnext]
        cases l₂ with
        | nil => exact Option.noConfusion
        | cons q₀ l₂' =>
            intro hh
            exact hp_not_l₂ (by
              rw [nextPtr_cons] at hh
              exact (Option.some.inj hh) ▸ List.mem_cons_of_mem id
                (List.mem_cons_self q₀ l₂'))
    have hcongr₁ : ∀ x ∈ l₁', lookup (unlinkNodes id n nodes) x = lookup nodes x := by
      intro x hx
      refine lookup_unlinkNodes_of_ne ?_ ?_ ?_
      · intro hh
        exact hid_l₁ (hh ▸ List.mem_append_left [p₀] hx)
      · rw [hprev_p]
        intro hh
        exact hp_not_l₁' ((Option.some.inj hh) ▸ hx)
      · rw [hnnext]
        cases l₂ with
        | nil => exact Option.noConfusion
        | cons q₀ l₂' =>
            rw [nextPtr_cons]
            intro hh
            exact hdisj (List.mem_append_left [p₀] hx)
              ((Option.some.inj hh) ▸ List.mem_cons_of_mem id (List.mem_cons_self q₀ l₂'))
    constructor
    · -- prefix chain l₁' ++ [p₀], exiting into l₂
      rw [checkLinks_append, Bool.and_eq_true]
      refine ⟨?_, ?_⟩
      · rw [checkLinks_congr hcongr₁]
        rw [nextPtr_cons] at hD1 ⊢
        exact hD1
      · rw [checkLinks_cons_iff]
        refine ⟨{ np with next := n.next }, hlook_p, hpid, hpu, hpprev, ?_,
          checkLinks_nil⟩
        show n.next = nextPtr [] (nextPtr l₂ none)
        rw [hnnext]
        rfl
    · -- suffix chain l₂ entered from p₀
      rw [lastPtr_concat]
      cases l₂ with
      | nil => exact checkLinks_nil
      | cons q₀ l₂' =>
          have hnext_q : n.next = some q₀ := by rw [hnnext]; rfl
          obtain ⟨nq, hnq, hqid, hqu, hqprev, hqnext, hA3'⟩ := checkLinks_cons_iff.mp hA3
          have hq_ne_id : q₀ ≠ id := by
            intro hh
            exact hid_l₂ (hh ▸ List.mem_cons_self q₀ l₂')
          have hq_not_l₂' : q₀ ∉ l₂' := (List.nodup_cons.mp hnd₂).1
          have hq_ne_p : p₀ ≠ q₀ := by
            intro hh
            refine hp_not_l₂ ?_
            rw [hh]
            exact List.mem_cons_of_mem id (List.mem_cons_self q₀ l₂')
          rw [checkLinks_cons_iff]
          refine ⟨{ nq with prev := n.prev }, ?_, hqid, hqu, ?_, hqnext, ?_⟩
          · rw [lookup_unlinkNodes_next hnext_q hq_ne_id ?hpq, hnq]
            · rfl
            case hpq =>
              rw [hprev_p]
              intro hh
              exact hq_ne_p (Option.some.inj hh)
          · show n.prev = some p₀
            exact hprev_p
          · rw [checkLinks_congr]
            · exact hA3'
            · intro x hx
              refine lookup_unlinkNodes_of_ne ?_ ?_ ?_
              · intro hh
                exact hid_l₂ (hh ▸ List.mem_cons_of_mem q₀ hx)
              · rw [hprev_p]
                intro hh
                exact hp_not_l₂ ((Option.some.inj hh) ▸
                  List.mem_cons_of_mem id (List.mem_cons_of_mem q₀ hx))
              · rw [hnext_q]
                intro hh
                exact hq_not_l₂' ((Option.some.inj hh) ▸ hx)

/-- Appending a fresh node at the tail of a well-formed chain keeps the
chain well-formed with the new node last. -/
theorem checkLinks_append_tail {nodes : List (Nat × Node)} {u : Nat}
    {l : List Nat} {id t : Nat} {role : VoterType}
    (hnd : l.Nodup) (hl : checkLinks nodes u none l none = true)
    (htail : l.getLast? = some t) (hid : id ∉ l) :
    checkLinks
      (insertKV id ⟨id, some t, none, u, role⟩
        (updateKV t (fun m => { m with next := some id }) nodes))
      u none (l ++ [id]) none = true := by
  obtain ⟨l', rfl⟩ := exists_concat_of_getLast? htail
  have ht_ne_id : t ≠ id := by
    intro hh
    exact hid (hh ▸ (by simp : t ∈ l' ++ [t]))
  rw [List.nodup_append] at hnd
  obtain ⟨hnd', _, hdisj'⟩ := hnd
  have ht_not_l' : t ∉ l' := fun hmem => hdisj' hmem (by simp)
  rw [checkLinks_append, Bool.and_eq_true] at hl
  obtain ⟨hD1, hD2⟩ := hl
  obtain ⟨nt, hnt, htid, htu, htprev, htnext, _⟩ := checkLinks_cons_iff.mp hD2
  have hlook_id : lookup
      (insertKV id (⟨id, some t, none, u, role⟩ : Node)
        (updateKV t (fun m => { m with next := some id }) nodes)) id =
      some ⟨id, some t, none, u, role⟩ := lookup_insertKV_self
  have hlook_t : lookup
      (insertKV id (⟨id, some t, none, u, role⟩ : Node)
        (updateKV t (fun m => { m with next := some id }) nodes)) t =
      some { nt with next := some id } := by
    rw [lookup_insertKV_ne ht_ne_id, lookup_updateKV_self, hnt]
    rfl
  have hlook_other : ∀ x ∈ l', lookup
      (insertKV id (⟨id, some t, none, u, role⟩ : Node)
        (updateKV t (fun m => { m with next := some id }) nodes)) x =
      lookup nodes x := by
    intro x hx
    have hx_ne_id : x ≠ id := fun hh => hid (hh ▸ List.mem_append_left [t] hx)
    have hx_ne_t : x ≠ t := fun hh => ht_not_l' (hh ▸ hx)
    rw [lookup_insertKV_ne hx_ne_id, lookup_updateKV_ne hx_ne_t]
  rw [checkLinks_append, Bool.and_eq_true]
  constructor
  · -- the old chain, now exiting into the new node
    rw [checkLinks_append, Bool.and_eq_true]
    constructor
    · rw [checkLinks_congr hlook_other]
      rw [nextPtr_cons] at hD1 ⊢
      exact hD1
    · rw [checkLinks_cons_iff]
      exact ⟨{ nt with next := some id }, hlook_t, htid, htu, htprev, rfl,
        checkLinks_nil⟩
  · -- the new node as the sole tail element
    rw [lastPtr_concat, checkLinks_cons_iff]
    exact ⟨⟨id, some t, none, u, role⟩, hlook_id, rfl, rfl, rfl, rfl, checkLinks_nil⟩

theorem chainFrom_congr_of_checkLinks {nodes nodes' : List (Nat × Node)} {u : Nat}
    {p : Option Nat} {l : List Nat} {fuel : Nat}
    (h : checkLinks nodes u p l none = true)
    (hcong : ∀ x ∈ l, lookup nodes' x = lookup nodes x) (hf : l.length ≤ fuel) :
    chainFrom nodes' fuel l.head? = l := by
  refine chainFrom_of_checkLinks (u := u) (p := p) ?_ hf
  rw [checkLinks_congr hcong]
  exact h

/-! ## More sanity-derived helpers -/

theorem sanity_entry_chain {s : State} (sp : SanityProps s) {p : Nat × Bag}
    (hp : p ∈ s.bags) :
    chainFrom s.nodes s.nodes.length p.2.head ≠ [] ∧
    p.2.head = (chainFrom s.nodes s.nodes.length p.2.head).head? ∧
    p.2.tail = (chainFrom s.nodes s.nodes.length p.2.head).getLast? ∧
    checkLinks s.nodes p.1 none (chainFrom s.nodes s.nodes.length p.2.head) none
      = true := by
  have hok := sp.bags_ok p hp
  unfold checkBag at hok
  simp only [Bool.and_eq_true, decide_eq_true_eq] at hok
  obtain ⟨⟨⟨hne, hhead⟩, htail⟩, hlinks⟩ := hok
  exact ⟨ne_nil_of_not_isEmpty hne, hhead, htail, hlinks⟩

theorem sanity_entry_chain_nodup {s : State} (sp : SanityProps s) {p : Nat × Bag}
    (hp : p ∈ s.bags) :
    (chainFrom s.nodes s.nodes.length p.2.head).Nodup := by
  have hmem : chainFrom s.nodes s.nodes.length p.2.head ∈ chainsOf s :=
    List.mem_map.mpr ⟨p, hp, rfl⟩
  have := sp.chains_nodup
  rw [List.nodup_flatten] at this
  exact this.1 _ hmem

theorem sanity_entry_chain_length {s : State} (sp : SanityProps s) {p : Nat × Bag}
    (hp : p ∈ s.bags) :
    (chainFrom s.nodes s.nodes.length p.2.head).length ≤ s.nodes.length := by
  have hsub : chainFrom s.nodes s.nodes.length p.2.head ⊆ s.nodes.map Prod.fst :=
    checkLinks_subset_keys (sanity_entry_chain sp hp).2.2.2
  have := nodup_subset_length_le (sanity_entry_chain_nodup sp hp) hsub
  simpa using this

theorem sanity_bag_tail_some {s : State} (sp : SanityProps s) {u : Nat} {b : Bag}
    (hb : lookup s.bags u = some b) : ∃ t, b.tail = some t := by
  obtain ⟨hne, _, htail, _⟩ := sanity_bag_chain sp hb
  rw [htail]
  rw [List.getLast?_eq_getLast_of_ne_nil hne]
  exact ⟨_, rfl⟩

theorem sanity_keys_sub_bagFor {s : State} (sp : SanityProps s) :
    s.nodes.map Prod.fst ⊆ s.bagFor.map Prod.fst := by
  intro x hx
  rcases List.mem_map.mp hx with ⟨p, hp, rfl⟩
  have := (sp.node_records p hp).2
  exact lookup_isSome_iff.mp (by simp [this])

theorem sanity_bagFor_none {s : State} (sp : SanityProps s) {id : Nat}
    (hid : lookup s.nodes id = none) : lookup s.bagFor id = none := by
  have hperm : (s.nodes.map Prod.fst).Perm (s.bagFor.map Prod.fst) :=
    (sp.nodes_nodup.subperm (sanity_keys_sub_bagFor sp)).perm_of_length_le
      (by simp [sp.bagFor_len])
  rw [lookup_eq_none_iff] at hid ⊢
  intro hmem
  exact hid (hperm.mem_iff.mpr hmem)

theorem assoc_split {α : Type} {l : List (Nat × α)} {k : Nat} {v : α}
    (hnd : (l.map Prod.fst).Nodup) (h : lookup l k = some v) :
    ∃ l₁ l₂, l = l₁ ++ (k, v) :: l₂ ∧ k ∉ l₁.map Prod.fst ∧ k ∉ l₂.map Prod.fst := by
  induction l with
  | nil => simp [lookup] at h
  | cons p rest ih =>
      obtain ⟨k', v'⟩ := p
      simp only [List.map_cons, List.nodup_cons] at hnd
      by_cases hk : k' = k
      · subst hk
        rw [lookup_cons_self] at h
        cases h
        refine ⟨[], rest, rfl, by simp, ?_⟩
        exact hnd.1
      · rw [lookup_cons_ne hk] at h
        obtain ⟨l₁, l₂, rfl, h1, h2⟩ := ih hnd.2 h
        refine ⟨(k', v') :: l₁, l₂, rfl, ?_, h2⟩
        simp only [List.map_cons, List.mem_cons, not_or]
        exact ⟨fun hh => hk hh.symm, h1⟩

theorem replaceKV_split {α : Type} {l₁ l₂ : List (Nat × α)} {k : Nat} {v v' : α}
    (h1 : k ∉ l₁.map Prod.fst) (h2 : k ∉ l₂.map Prod.fst) :
    replaceKV k v' (l₁ ++ (k, v) :: l₂) = l₁ ++ (k, v') :: l₂ := by
  induction l₁ with
  | nil =>
      simp only [List.nil_append]
      rw [replaceKV_cons_self, replaceKV_not_mem (lookup_eq_none_iff.mpr h2)]
  | cons p rest ih =>
      obtain ⟨k', w⟩ := p
      simp only [List.map_cons, List.mem_cons, not_or] at h1
      have : k' ≠ k := fun hh => h1.1 hh.symm
      rw [List.cons_append, replaceKV_cons_ne this, ih h1.2]
      rfl

theorem removeKV_split {α : Type} {l₁ l₂ : List (Nat × α)} {k : Nat} {v : α}
    (h1 : k ∉ l₁.map Prod.fst) (h2 : k ∉ l₂.map Prod.fst) :
    removeKV k (l₁ ++ (k, v) :: l₂) = l₁ ++ l₂ := by
  rw [removeKV_append, removeKV_cons_self,
    removeKV_of_not_mem (lookup_eq_none_iff.mpr h1),
    removeKV_of_not_mem (lookup_eq_none_iff.mpr h2)]

theorem mem_updateKV {α : Type} {l : List (Nat × α)} {k : Nat} {f : α → α}
    {p : Nat × α} (h : p ∈ updateKV k f l) :
    p ∈ l ∨ (p.1 = k ∧ ∃ v, (k, v) ∈ l ∧ p.2 = f v) := by
  induction l with
  | nil => simp [updateKV] at h
  | cons q rest ih =>
      obtain ⟨k', v'⟩ := q
      by_cases hk : k' = k
      · subst hk
        rw [updateKV_cons_self] at h
        rcases List.mem_cons.mp h with rfl | h'
        · exact Or.inr ⟨rfl, v', by simp⟩
        · rcases ih h' with h'' | ⟨he, v, hv, hp⟩
          · exact Or.inl (by simp [h''])
          · exact Or.inr ⟨he, v, by simp [hv], hp⟩
      · rw [updateKV_cons_ne hk] at h
        rcases List.mem_cons.mp h with rfl | h'
        · exact Or.inl (by simp)
        · rcases ih h' with h'' | ⟨he, v, hv, hp⟩
          · exact Or.inl (by simp [h''])
          · exact Or.inr ⟨he, v, by simp [hv], hp⟩

/-! ## The effect of insertAt on a sane state -/

theorem isEmpty_false_of_ne_nil {l : List Nat} (h : l ≠ []) : (!l.isEmpty) = true := by
  cases l with
  | nil => exact absurd rfl h
  | cons a l' => rfl

theorem checkBag_of_facts {nodes : List (Nat × Node)} {fuel u : Nat} {b : Bag}
    {l : List Nat} (hchain : chainFrom nodes fuel b.head = l) (hne : l ≠ [])
    (hhead : b.head = l.head?) (htail : b.tail = l.getLast?)
    (hlinks : checkLinks nodes u none l none = true) :
    checkBag nodes fuel u b = true := by
  unfold checkBag
  rw [hchain]
  simp [isEmpty_false_of_ne_nil hne, hhead, htail, hlinks]

theorem lookup_append_left_of_some {α : Type} {l₁ l₂ : List (Nat × α)} {k : Nat}
    {v : α} (h : lookup l₁ k = some v) : lookup (l₁ ++ l₂) k = some v := by
  rw [lookup_append, h]

theorem lookup_append_right_of_none {α : Type} {l₁ l₂ : List (Nat × α)} {k : Nat}
    (h : lookup l₁ k = none) : lookup (l₁ ++ l₂) k = lookup l₂ k := by
  rw [lookup_append, h]

/-- What a successful tail-append (`insertAt` on a fresh identity, into a
valid band) guarantees. -/
structure InsertOutcome (s : State) (id : Nat) (role : VoterType) (u : Nat)
    (sOut : State) : Prop where
  sane : SanityProps sOut
  members_new : bagMembers sOut u = bagMembers s u ++ [id]
  members_old : ∀ u', u' ≠ u → bagMembers sOut u' = bagMembers s u'
  counter : sOut.counter = s.counter + 1
  events : sOut.events = s.events
  keys : sOut.nodes.map Prod.fst = s.nodes.map Prod.fst ++ [id]
  node : ∃ nd, lookup sOut.nodes id = some nd ∧ nd.id = id ∧ nd.bag_upper = u ∧
    nd.voter_type = role
  bag : ∃ b', lookup sOut.bags u = some b' ∧ b'.tail = some id
  nodes_other : ∀ x, x ≠ id → (lookup sOut.nodes x).map
      (fun m => (m.bag_upper, m.voter_type)) =
    (lookup s.nodes x).map (fun m => (m.bag_upper, m.voter_type))
  bags_other : ∀ u', u' ≠ u → lookup sOut.bags u' = lookup s.bags u'
  bagFor_new : lookup sOut.bagFor id = some u

theorem insertAt_spec_newbag {s : State} (sp : SanityProps s) {id : Nat}
    {role : VoterType} {u : Nat} (hid : lookup s.nodes id = none)
    (hb : lookup s.bags u = none) :
    InsertOutcome s id role u (insertAt id role u s) := by
  have hid' : id ∉ s.nodes.map Prod.fst := lookup_eq_none_iff.mp hid
  have hbf : lookup s.bagFor id = none := sanity_bagFor_none sp hid
  have hbf' : id ∉ s.bagFor.map Prod.fst := lookup_eq_none_iff.mp hbf
  have hbk : u ∉ s.bags.map Prod.fst := lookup_eq_none_iff.mp hb
  have hs' : insertAt id role u s =
      { counter := s.counter + 1
        nodes := s.nodes ++ [(id, ⟨id, none, none, u, role⟩)]
        bagFor := s.bagFor ++ [(id, u)]
        bags := s.bags ++ [(u, ⟨some id, some id⟩)]
        events := s.events } := by
    unfold insertAt
    rw [hb]
    show ({ counter := s.counter + 1
            nodes := insertKV id ⟨id, none, none, u, role⟩ s.nodes
            bagFor := insertKV id u s.bagFor
            bags := insertKV u ⟨some id, some id⟩ s.bags
            events := s.events } : State) = _
    rw [insertKV_of_not_mem hid, insertKV_of_not_mem hbf, insertKV_of_not_mem hb]
  rw [hs']
  -- notation for the new parts
  have hcong : ∀ x ∈ s.nodes.map Prod.fst,
      lookup (s.nodes ++ [(id, (⟨id, none, none, u, role⟩ : Node))]) x =
        lookup s.nodes x := by
    intro x hx
    rcases hlx : lookup s.nodes x with _ | v
    · exact absurd (lookup_eq_none_iff.mp hlx) (by simpa using hx)
    · exact lookup_append_left_of_some hlx
  have hlook_id : lookup (s.nodes ++ [(id, (⟨id, none, none, u, role⟩ : Node))]) id =
      some ⟨id, none, none, u, role⟩ := by
    rw [lookup_append_right_of_none hid, lookup_cons_self]
  have hnew_links : checkLinks (s.nodes ++ [(id, (⟨id, none, none, u, role⟩ : Node))])
      u none [id] none = true := by
    rw [checkLinks_cons_iff]
    exact ⟨⟨id, none, none, u, role⟩, hlook_id, rfl, rfl, rfl, rfl, checkLinks_nil⟩
  have hnew_chain : chainFrom (s.nodes ++ [(id, (⟨id, none, none, u, role⟩ : Node))])
      (s.nodes.length + 1) (some id) = [id] := by
    have := chainFrom_of_checkLinks hnew_links
      (show ([id] : List Nat).length ≤ s.nodes.length + 1 by simp)
    simpa using this
  have hold_chain : ∀ p ∈ s.bags,
      chainFrom (s.nodes ++ [(id, (⟨id, none, none, u, role⟩ : Node))])
        (s.nodes.length + 1) p.2.head =
        chainFrom s.nodes s.nodes.length p.2.head := by
    intro p hp
    have hlen := sanity_entry_chain_length sp hp
    obtain ⟨hne, hhead, htail, hlinks⟩ := sanity_entry_chain sp hp
    have hsub := checkLinks_subset_keys hlinks
    set l := chainFrom s.nodes s.nodes.length p.2.head with hl
    rw [hhead]
    exact chainFrom_congr_of_checkLinks hlinks
      (fun x hx => hcong x (hsub hx))
      (le_trans hlen (Nat.le_succ s.nodes.length))
  have hkeys : (s.nodes ++ [(id, (⟨id, none, none, u, role⟩ : Node))]).map Prod.fst =
      s.nodes.map Prod.fst ++ [id] := by simp
  refine
    { sane := ?_
      members_new := ?_
      members_old := ?_
      counter := rfl
      events := rfl
      keys := hkeys
      node := ⟨⟨id, none, none, u, role⟩, hlook_id, rfl, rfl, rfl⟩
      bag := ⟨⟨some id, some id⟩, ?_, rfl⟩
      nodes_other := ?_
      bags_other := ?_
      bagFor_new := ?_ }
  · -- SanityProps of the new state
    refine
      { counter_eq := by simp [sp.counter_eq]
        nodes_nodup := by
          rw [hkeys, List.nodup_append]
          exact ⟨sp.nodes_nodup, List.nodup_singleton id,
            fun x hx hx' => hid' ((List.mem_singleton.mp hx') ▸ hx)⟩
        bags_nodup := by
          show ((s.bags ++ [(u, Bag.mk (some id) (some id))]).map Prod.fst).Nodup
          rw [List.map_append, List.nodup_append]
          exact ⟨sp.bags_nodup, by simp, fun x hx hx' => hbk (by
            simp only [List.map_cons, List.map_nil, List.mem_singleton] at hx'
            exact hx' ▸ hx)⟩
        bagFor_nodup := by
          show ((s.bagFor ++ [(id, u)]).map Prod.fst).Nodup
          rw [List.map_append, List.nodup_append]
          exact ⟨sp.bagFor_nodup, by simp, fun x hx hx' => hbf' (by
            simp only [List.map_cons, List.map_nil, List.mem_singleton] at hx'
            exact hx' ▸ hx)⟩
        bagFor_len := by simp [sp.bagFor_len]
        node_records := ?_
        bags_ok := ?_
        chains_nodup := ?_
        chains_len := ?_ }
    · intro p hp
      rcases List.mem_append.mp hp with hp' | hp'
      · obtain ⟨h1, h2⟩ := sp.node_records p hp'
        refine ⟨h1, ?_⟩
        exact lookup_append_left_of_some h2
      · rw [List.mem_singleton] at hp'
        subst hp'
        exact ⟨rfl, by rw [lookup_append_right_of_none hbf, lookup_cons_self]⟩
    · intro p hp
      rcases List.mem_append.mp hp with hp' | hp'
      · obtain ⟨hne, hhead, htail, hlinks⟩ := sanity_entry_chain sp hp'
        refine checkBag_of_facts (l := chainFrom s.nodes s.nodes.length p.2.head)
          ?_ hne hhead htail ?_
        · show chainFrom _ (s.nodes ++ _).length p.2.head = _
          have := hold_chain p hp'
          simpa using this
        · rw [checkLinks_congr (fun x hx =>
            hcong x (checkLinks_subset_keys hlinks hx))]
          exact hlinks
      · rw [List.mem_singleton] at hp'
        subst hp'
        refine checkBag_of_facts (l := [id]) ?_ (by simp) rfl rfl ?_
        · show chainFrom _ (s.nodes ++ _).length (some id) = _
          simpa using hnew_chain
        · exact hnew_links
    · show ((s.bags ++ [(u, Bag.mk (some id) (some id))]).map
        (fun p => chainFrom _ (s.nodes ++ _).length p.2.head)).flatten.Nodup
      rw [List.map_append]
      rw [List.map_congr_left (fun p hp => by
        simpa using hold_chain p hp)]
      simp only [List.map_cons, List.map_nil]
      rw [show chainFrom (s.nodes ++ [(id, (⟨id, none, none, u, role⟩ : Node))])
          (s.nodes ++ [(id, (⟨id, none, none, u, role⟩ : Node))]).length (some id)
          = [id] from by simpa using hnew_chain]
      rw [List.flatten_append]
      rw [List.nodup_append]
      refine ⟨sp.chains_nodup, by simp, ?_⟩
      intro x hx hx'
      simp only [List.flatten_cons, List.flatten_nil, List.append_nil,
        List.mem_singleton] at hx'
      subst hx'
      exact hid' (sanity_chains_subset sp hx)
    · show ((s.bags ++ [(u, Bag.mk (some id) (some id))]).map
        (fun p => chainFrom _ (s.nodes ++ _).length p.2.head)).flatten.length =
        (s.nodes ++ _).length
      rw [List.map_append]
      rw [List.map_congr_left (fun p hp => by
        simpa using hold_chain p hp)]
      simp only [List.map_cons, List.map_nil]
      rw [show chainFrom (s.nodes ++ [(id, (⟨id, none, none, u, role⟩ : Node))])
          (s.nodes ++ [(id, (⟨id, none, none, u, role⟩ : Node))]).length (some id)
          = [id] from by simpa using hnew_chain]
      rw [List.flatten_append, List.length_append]
      have hfl := sp.chains_len
      unfold chainsOf at hfl
      rw [hfl]
      simp
  · -- bagMembers at u
    unfold bagMembers
    rw [hb]
    show (match lookup (s.bags ++ [(u, Bag.mk (some id) (some id))]) u with
      | none => []
      | some b => chainFrom _ _ b.head) = [] ++ [id]
    rw [lookup_append_right_of_none hb, lookup_cons_self]
    show chainFrom _ (s.nodes ++ _).length (some id) = [] ++ [id]
    simpa using hnew_chain
  · -- bagMembers elsewhere
    intro u' hu'
    unfold bagMembers
    show (match lookup (s.bags ++ [(u, Bag.mk (some id) (some id))]) u' with
      | none => []
      | some b => chainFrom _ _ b.head) = _
    rcases hub : lookup s.bags u' with _ | b'
    · rw [lookup_append_right_of_none hub, lookup_cons_ne (fun hh => hu' hh.symm)]
      rfl
    · rw [lookup_append_left_of_some hub]
      have hp' : (u', b') ∈ s.bags := lookup_mem hub
      have := hold_chain (u', b') hp'
      simpa using this
  · rw [lookup_append_right_of_none hb, lookup_cons_self]
  · intro x hx
    rcases hlx : lookup s.nodes x with _ | v
    · rw [lookup_append_right_of_none hlx, lookup_cons_ne (fun hh => hx hh.symm)]
      rfl
    · rw [lookup_append_left_of_some hlx]
  · intro u' hu'
    rcases hub : lookup s.bags u' with _ | b'
    · rw [lookup_append_right_of_none hub, lookup_cons_ne (fun hh => hu' hh.symm)]
      rfl
    · rw [lookup_append_left_of_some hub]
  · rw [lookup_append_right_of_none hbf, lookup_cons_self]

theorem length_updateKV {α : Type} {l : List (Nat × α)} {k : Nat} {f : α → α} :
    (updateKV k f l).length = l.length := by
  have := keys_updateKV (l := l) (k := k) (f := f)
  have h1 : ((updateKV k f l).map Prod.fst).length = (l.map Prod.fst).length := by
    rw [this]
  simpa using h1

theorem head?_append_left {l l₂ : List Nat} (h : l ≠ []) :
    (l ++ l₂).head? = l.head? := by
  cases l with
  | nil => exact absurd rfl h
  | cons a t => rfl

theorem insertAt_spec_tail {s : State} (sp : SanityProps s) {id : Nat}
    {role : VoterType} {u : Nat} {b : Bag} (hid : lookup s.nodes id = none)
    (hb : lookup s.bags u = some b) :
    InsertOutcome s id role u (insertAt id role u s) := by
  have hid' : id ∉ s.nodes.map Prod.fst := lookup_eq_none_iff.mp hid
  have hbf : lookup s.bagFor id = none := sanity_bagFor_none sp hid
  have hbf' : id ∉ s.bagFor.map Prod.fst := lookup_eq_none_iff.mp hbf
  obtain ⟨t, htl⟩ := sanity_bag_tail_some sp hb
  have hub : (u, b) ∈ s.bags := lookup_mem hb
  -- the chain of bag u
  have hlenl := sanity_entry_chain_length sp hub
  have hndl := sanity_entry_chain_nodup sp hub
  obtain ⟨hnel, hheadl, htaill, hlinksl⟩ := sanity_entry_chain sp hub
  set l := chainFrom s.nodes s.nodes.length (u, b).2.head with hldef
  have hlbm : bagMembers s u = l := bagMembers_eq_chain hb
  have hlast : l.getLast? = some t := by rw [← htaill]; exact htl
  have hsubl : l ⊆ s.nodes.map Prod.fst := checkLinks_subset_keys hlinksl
  have hidl : id ∉ l := fun hmem => hid' (hsubl hmem)
  have htmem : t ∈ l := by
    obtain ⟨l'', hl''⟩ := exists_concat_of_getLast? hlast
    rw [hl'']
    simp
  have ht_ne_id : t ≠ id := fun hh => hid' (hsubl (hh ▸ htmem))
  -- the new node store
  have hupdkeys : (updateKV t (fun m => { m with next := some id }) s.nodes).map
      Prod.fst = s.nodes.map Prod.fst := keys_updateKV
  have hidupd : lookup (updateKV t (fun m => { m with next := some id }) s.nodes)
      id = none := by
    rw [lookup_updateKV_ne (fun hh => ht_ne_id hh.symm)]
    exact hid
  have hs' : insertAt id role u s =
      { counter := s.counter + 1
        nodes := updateKV t (fun m => { m with next := some id }) s.nodes ++
          [(id, ⟨id, some t, none, u, role⟩)]
        bagFor := s.bagFor ++ [(id, u)]
        bags := replaceKV u ⟨b.head, some id⟩ s.bags
        events := s.events } := by
    unfold insertAt
    rw [hb]
    simp only [Option.getD_some]
    rw [htl]
    show ({ counter := s.counter + 1
            nodes := insertKV id ⟨id, some t, none, u, role⟩
              (updateKV t (fun m => { m with next := some id }) s.nodes)
            bagFor := insertKV id u s.bagFor
            bags := insertKV u ⟨b.head, some id⟩ s.bags
            events := s.events } : State) = _
    rw [insertKV_of_not_mem hidupd, insertKV_of_not_mem hbf,
      insertKV_of_mem (by simp [hb])]
  rw [hs']
  have hkeysN : (updateKV t (fun m => { m with next := some id }) s.nodes ++
      [(id, (⟨id, some t, none, u, role⟩ : Node))]).map Prod.fst =
      s.nodes.map Prod.fst ++ [id] := by
    rw [List.map_append, hupdkeys]
    rfl
  have hlenN : (updateKV t (fun m => { m with next := some id }) s.nodes ++
      [(id, (⟨id, some t, none, u, role⟩ : Node))]).length =
      s.nodes.length + 1 := by
    rw [List.length_append, length_updateKV]
    rfl
  have hlookN_id : lookup (updateKV t (fun m => { m with next := some id }) s.nodes ++
      [(id, (⟨id, some t, none, u, role⟩ : Node))]) id =
      some ⟨id, some t, none, u, role⟩ := by
    rw [lookup_append_right_of_none hidupd, lookup_cons_self]
  have hcongO : ∀ x, x ≠ t → x ≠ id →
      lookup (updateKV t (fun m => { m with next := some id }) s.nodes ++
        [(id, (⟨id, some t, none, u, role⟩ : Node))]) x = lookup s.nodes x := by
    intro x hxt hxi
    have h1 : lookup (updateKV t (fun m => { m with next := some id }) s.nodes) x =
        lookup s.nodes x := lookup_updateKV_ne hxt
    rcases hlx : lookup s.nodes x with _ | v
    · rw [lookup_append_right_of_none (by rw [h1, hlx]),
        lookup_cons_ne (fun hh => hxi hh.symm)]
      rfl
    · rw [lookup_append_left_of_some (by rw [h1, hlx])]
  have hnewlinks : checkLinks (updateKV t (fun m => { m with next := some id })
      s.nodes ++ [(id, (⟨id, some t, none, u, role⟩ : Node))]) u none
      (l ++ [id]) none := by
    have := @checkLinks_append_tail s.nodes u l id t role hndl hlinksl hlast hidl
    rw [insertKV_of_not_mem hidupd] at this
    exact this
  have hheadb : b.head = l.head? := hheadl
  have hnewchain : chainFrom (updateKV t (fun m => { m with next := some id })
      s.nodes ++ [(id, (⟨id, some t, none, u, role⟩ : Node))])
      (s.nodes.length + 1) b.head = l ++ [id] := by
    have h1 : (l ++ [id]).head? = b.head := by
      rw [head?_append_left hnel, hheadb]
    rw [← h1]
    exact chainFrom_of_checkLinks hnewlinks (by
      rw [List.length_append]
      have : l.length ≤ s.nodes.length := by simpa using hlenl
      simp only [List.length_cons, List.length_nil]
      omega)
  obtain ⟨B₁, B₂, hsplit, huB₁, huB₂⟩ := assoc_split sp.bags_nodup hb
  have hbags' : replaceKV u (⟨b.head, some id⟩ : Bag) s.bags =
      B₁ ++ (u, (⟨b.head, some id⟩ : Bag)) :: B₂ := by
    rw [hsplit]
    exact replaceKV_split huB₁ huB₂
  have hold_chain : ∀ p ∈ s.bags, p.1 ≠ u →
      chainFrom (updateKV t (fun m => { m with next := some id }) s.nodes ++
        [(id, (⟨id, some t, none, u, role⟩ : Node))])
        (s.nodes.length + 1) p.2.head =
      chainFrom s.nodes s.nodes.length p.2.head := by
    intro p hp hpu
    have hlenp := sanity_entry_chain_length sp hp
    have hdisjp := sanity_chains_pairwise_disjoint sp p hp (u, b) hub
      (fun hh => hpu (by rw [hh]))
    obtain ⟨hnep, hheadp, htailp, hlinksp⟩ := sanity_entry_chain sp hp
    set lp := chainFrom s.nodes s.nodes.length p.2.head with hlpdef
    rw [hheadp]
    refine chainFrom_congr_of_checkLinks hlinksp ?_
      (le_trans hlenp (Nat.le_succ _))
    intro x hx
    refine hcongO x ?_ ?_
    · intro hh
      exact (hdisjp x hx) (hh ▸ htmem)
    · intro hh
      exact hid' (hh ▸ checkLinks_subset_keys hlinksp hx)
  have hmemB₁ : ∀ p ∈ B₁, p ∈ s.bags ∧ p.1 ≠ u := by
    intro p hp
    refine ⟨by rw [hsplit]; exact List.mem_append_left _ hp, ?_⟩
    intro hh
    exact huB₁ (hh ▸ List.mem_map.mpr ⟨p, hp, rfl⟩)
  have hmemB₂ : ∀ p ∈ B₂, p ∈ s.bags ∧ p.1 ≠ u := by
    intro p hp
    refine ⟨by rw [hsplit]; exact List.mem_append_right _ (List.mem_cons_of_mem _ hp), ?_⟩
    intro hh
    exact huB₂ (hh ▸ List.mem_map.mpr ⟨p, hp, rfl⟩)
  have hlookBags : lookup (B₁ ++ (u, (⟨b.head, some id⟩ : Bag)) :: B₂) u =
      some ⟨b.head, some id⟩ := by
    rw [lookup_append_right_of_none (lookup_eq_none_iff.mpr huB₁), lookup_cons_self]
  -- the old flatten, decomposed
  have hfl_old : (chainsOf s).flatten =
      (B₁.map (fun p => chainFrom s.nodes s.nodes.length p.2.head)).flatten ++
      (l ++ (B₂.map (fun p => chainFrom s.nodes s.nodes.length p.2.head)).flatten) := by
    unfold chainsOf
    rw [hsplit]
    simp [List.map_append, List.flatten_append]
  have hchains' : (B₁ ++ (u, (⟨b.head, some id⟩ : Bag)) :: B₂).map
      (fun p => chainFrom (updateKV t (fun m => { m with next := some id }) s.nodes ++
        [(id, (⟨id, some t, none, u, role⟩ : Node))])
        (updateKV t (fun m => { m with next := some id }) s.nodes ++
          [(id, (⟨id, some t, none, u, role⟩ : Node))]).length p.2.head) =
      B₁.map (fun p => chainFrom s.nodes s.nodes.length p.2.head) ++
      (l ++ [id]) :: B₂.map (fun p => chainFrom s.nodes s.nodes.length p.2.head) := by
    rw [List.map_append, List.map_cons]
    congr 1
    · refine List.map_congr_left ?_
      intro p hp
      obtain ⟨hpmem, hpu⟩ := hmemB₁ p hp
      show chainFrom _ _ p.2.head = _
      rw [hlenN]
      exact hold_chain p hpmem hpu
    · congr 1
      · show chainFrom _ _ (⟨b.head, some id⟩ : Bag).head = l ++ [id]
        rw [hlenN]
        exact hnewchain
      · refine List.map_congr_left ?_
        intro p hp
        obtain ⟨hpmem, hpu⟩ := hmemB₂ p hp
        show chainFrom _ _ p.2.head = _
        rw [hlenN]
        exact hold_chain p hpmem hpu
  refine
    { sane := ?_
      members_new := ?_
      members_old := ?_
      counter := rfl
      events := rfl
      keys := hkeysN
      node := ⟨⟨id, some t, none, u, role⟩, hlookN_id, rfl, rfl, rfl⟩
      bag := ⟨⟨b.head, some id⟩, by rw [hbags']; exact hlookBags, rfl⟩
      nodes_other := ?_
      bags_other := ?_
      bagFor_new := by rw [lookup_append_right_of_none hbf, lookup_cons_self] }
  · -- SanityProps
    refine
      { counter_eq := by rw [hlenN, sp.counter_eq]
        nodes_nodup := by
          rw [hkeysN, List.nodup_append]
          exact ⟨sp.nodes_nodup, List.nodup_singleton id,
            fun x hx hx' => hid' ((List.mem_singleton.mp hx') ▸ hx)⟩
        bags_nodup := by
          show ((replaceKV u (⟨b.head, some id⟩ : Bag) s.bags).map Prod.fst).Nodup
          rw [keys_replaceKV]
          exact sp.bags_nodup
        bagFor_nodup := by
          show ((s.bagFor ++ [(id, u)]).map Prod.fst).Nodup
          rw [List.map_append, List.nodup_append]
          exact ⟨sp.bagFor_nodup, by simp, fun x hx hx' => hbf' (by
            simp only [List.map_cons, List.map_nil, List.mem_singleton] at hx'
            exact hx' ▸ hx)⟩
        bagFor_len := by
          show (s.bagFor ++ [(id, u)]).length = _
          rw [List.length_append, hlenN, sp.bagFor_len]
          simp
        node_records := ?_
        bags_ok := ?_
        chains_nodup := ?_
        chains_len := ?_ }
    · intro p hp
      rcases List.mem_append.mp hp with hp' | hp'
      · rcases mem_updateKV hp' with hmem | ⟨hpt, v, hv, hpv⟩
        · obtain ⟨h1, h2⟩ := sp.node_records p hmem
          exact ⟨h1, lookup_append_left_of_some h2⟩
        · obtain ⟨h1, h2⟩ := sp.node_records (t, v) hv
          refine ⟨?_, ?_⟩
          · rw [hpv, hpt]
            exact h1
          · rw [hpt, hpv]
            refine lookup_append_left_of_some ?_
            show lookup s.bagFor t = some v.bag_upper
            simpa using h2
      · rw [List.mem_singleton] at hp'
        subst hp'
        exact ⟨rfl, by rw [lookup_append_right_of_none hbf, lookup_cons_self]⟩
    · intro p hp
      rw [hbags'] at hp
      rcases List.mem_append.mp hp with hp' | hp'
      · obtain ⟨hpmem, hpu⟩ := hmemB₁ p hp'
        obtain ⟨hnep, hheadp, htailp, hlinksp⟩ := sanity_entry_chain sp hpmem
        refine checkBag_of_facts (l := chainFrom s.nodes s.nodes.length p.2.head)
          ?_ hnep hheadp htailp ?_
        · have := hold_chain p hpmem hpu
          rw [hlenN]
          exact this
        · rw [checkLinks_congr (fun x hx => hcongO x
            (fun hh => (sanity_chains_pairwise_disjoint sp p hpmem (u, b) hub
              (fun hh2 => hpu (by rw [hh2])) x hx) (hh ▸ htmem))
            (fun hh => hid' (hh ▸ checkLinks_subset_keys hlinksp hx)))]
          exact hlinksp
      · rcases List.mem_cons.mp hp' with rfl | hp''
        · refine checkBag_of_facts (l := l ++ [id]) ?_ (by simp [hnel]) ?_ ?_ ?_
          · rw [hlenN]
            exact hnewchain
          · show b.head = (l ++ [id]).head?
            rw [head?_append_left hnel, hheadb]
          · show some id = (l ++ [id]).getLast?
            rw [List.getLast?_concat]
          · exact hnewlinks
        · obtain ⟨hpmem, hpu⟩ := hmemB₂ p hp''
          obtain ⟨hnep, hheadp, htailp, hlinksp⟩ := sanity_entry_chain sp hpmem
          refine checkBag_of_facts (l := chainFrom s.nodes s.nodes.length p.2.head)
            ?_ hnep hheadp htailp ?_
          · have := hold_chain p hpmem hpu
            rw [hlenN]
            exact this
          · rw [checkLinks_congr (fun x hx => hcongO x
              (fun hh => (sanity_chains_pairwise_disjoint sp p hpmem (u, b) hub
                (fun hh2 => hpu (by rw [hh2])) x hx) (hh ▸ htmem))
              (fun hh => hid' (hh ▸ checkLinks_subset_keys hlinksp hx)))]
            exact hlinksp
    · -- chains_nodup
      show ((replaceKV u (⟨b.head, some id⟩ : Bag) s.bags).map
        (fun p => chainFrom _ _ p.2.head)).flatten.Nodup
      rw [hbags', hchains', List.flatten_append, List.flatten_cons]
      have hnd_old := sp.chains_nodup
      rw [hfl_old] at hnd_old
      have hid_old : id ∉ (B₁.map (fun p =>
          chainFrom s.nodes s.nodes.length p.2.head)).flatten ++
          (l ++ (B₂.map (fun p =>
            chainFrom s.nodes s.nodes.length p.2.head)).flatten) := by
        rw [← hfl_old]
        intro hmem
        exact hid' (sanity_chains_subset sp hmem)
      have hshape : (B₁.map (fun p =>
          chainFrom s.nodes s.nodes.length p.2.head)).flatten ++
          ((l ++ [id]) ++ (B₂.map (fun p =>
            chainFrom s.nodes s.nodes.length p.2.head)).flatten) =
          ((B₁.map (fun p => chainFrom s.nodes s.nodes.length p.2.head)).flatten
            ++ l) ++ id :: (B₂.map (fun p =>
            chainFrom s.nodes s.nodes.length p.2.head)).flatten := by
        simp
      rw [hshape, List.nodup_middle, List.nodup_cons]
      constructor
      · intro hmem
        refine hid_old ?_
        rcases List.mem_append.mp hmem with h' | h'
        · rcases List.mem_append.mp h' with h'' | h''
          · exact List.mem_append_left _ h''
          · exact List.mem_append_right _ (List.mem_append_left _ h'')
        · exact List.mem_append_right _ (List.mem_append_right _ h')
      · rw [List.append_assoc]
        exact hnd_old
    · -- chains_len
      show ((replaceKV u (⟨b.head, some id⟩ : Bag) s.bags).map
        (fun p => chainFrom _ _ p.2.head)).flatten.length = _
      rw [hbags', hchains', List.flatten_append, List.flatten_cons]
      have hlen_old := sp.chains_len
      rw [hfl_old] at hlen_old
      rw [hlenN]
      simp only [List.length_append] at hlen_old ⊢
      simp only [List.length_cons, List.length_nil] at hlen_old ⊢
      omega
  · -- members_new
    rw [hlbm]
    unfold bagMembers
    show (match lookup (replaceKV u (⟨b.head, some id⟩ : Bag) s.bags) u with
      | none => []
      | some b => chainFrom _ _ b.head) = l ++ [id]
    rw [hbags', hlookBags]
    show chainFrom _ (updateKV t (fun m => { m with next := some id }) s.nodes ++
      [(id, (⟨id, some t, none, u, role⟩ : Node))]).length b.head = l ++ [id]
    rw [hlenN]
    exact hnewchain
  · -- members_old
    intro u' hu'
    unfold bagMembers
    show (match lookup (replaceKV u (⟨b.head, some id⟩ : Bag) s.bags) u' with
      | none => []
      | some b => chainFrom _ _ b.head) = _
    rw [lookup_replaceKV_ne hu']
    rcases hub' : lookup s.bags u' with _ | b'
    · rfl
    · rw [hlenN]
      exact hold_chain (u', b') (lookup_mem hub') hu'
  · -- nodes_other
    intro x hx
    by_cases hxt : x = t
    · subst hxt
      obtain ⟨nt, hnt, _, _⟩ := checkLinks_mem hlinksl htmem
      have h1 : lookup (updateKV x (fun m => { m with next := some id }) s.nodes) x =
          some { nt with next := some id } := by
        rw [lookup_updateKV_self, hnt]
        rfl
      rw [lookup_append_left_of_some h1, hnt]
      rfl
    · rw [hcongO x hxt hx]
  · -- bags_other
    intro u' hu'
    exact lookup_replaceKV_ne hu'

theorem insertAt_spec {s : State} (sp : SanityProps s) {id : Nat}
    {role : VoterType} {u : Nat} (hid : lookup s.nodes id = none) :
    InsertOutcome s id role u (insertAt id role u s) := by
  rcases hb : lookup s.bags u with _ | b
  · exact insertAt_spec_newbag sp hid hb
  · exact insertAt_spec_tail sp hid hb

/-! ## The effect of remove on a sane state -/

theorem mem_removeKV {α : Type} {l : List (Nat × α)} {k : Nat} {p : Nat × α}
    (h : p ∈ removeKV k l) : p ∈ l ∧ p.1 ≠ k := by
  induction l with
  | nil => simp [removeKV] at h
  | cons q rest ih =>
      obtain ⟨k', v'⟩ := q
      by_cases hk : k' = k
      · subst hk
        rw [removeKV_cons_self] at h
        obtain ⟨h1, h2⟩ := ih h
        exact ⟨List.mem_cons_of_mem _ h1, h2⟩
      · rw [removeKV_cons_ne hk] at h
        rcases List.mem_cons.mp h with rfl | h'
        · exact ⟨List.mem_cons_self _ _, hk⟩
        · obtain ⟨h1, h2⟩ := ih h'
          exact ⟨List.mem_cons_of_mem _ h1, h2⟩

theorem length_filter_ne {l : List Nat} {k : Nat} (hnd : l.Nodup) (h : k ∈ l) :
    (l.filter (fun x => x ≠ k)).length + 1 = l.length := by
  induction l with
  | nil => simp at h
  | cons a rest ih =>
      rw [List.nodup_cons] at hnd
      rcases List.mem_cons.mp h with rfl | h'
      · rw [List.filter_cons_of_neg (by simp)]
        rw [List.filter_eq_self.mpr (fun x hx => by
          simp only [ne_eq, decide_eq_true_eq]
          intro hh
          exact hnd.1 (hh ▸ hx))]
        rfl
      · have ha : a ≠ k := fun hh => hnd.1 (hh ▸ h')
        rw [List.filter_cons_of_pos (by simp [ha])]
        simp only [List.length_cons]
        rw [ih hnd.2 h']

theorem lastPtr_none_eq_getLast? {l : List Nat} : lastPtr none l = l.getLast? := by
  unfold lastPtr
  cases l.getLast? <;> rfl

theorem removeBagOf_gone {id : Nat} {node : Node} {bag : Bag}
    {bags : List (Nat × Bag)}
    (hH : (if bag.head = some id then node.next else bag.head) = none)
    (hT : (if bag.tail = some id then node.prev else bag.tail) = none) :
    removeBagOf id node bag bags = removeKV node.bag_upper bags := by
  unfold removeBagOf
  rw [hH, hT]

theorem removeBagOf_stays {id : Nat} {node : Node} {bag : Bag}
    {bags : List (Nat × Bag)} {h : Nat}
    (hH : (if bag.head = some id then node.next else bag.head) = some h) :
    removeBagOf id node bag bags = insertKV node.bag_upper
      ⟨some h, if bag.tail = some id then node.prev else bag.tail⟩ bags := by
  unfold removeBagOf
  rw [hH]

theorem mem_unlinkNodes {nodes : List (Nat × Node)} {id : Nat} {n : Node}
    {p : Nat × Node} (h : p ∈ unlinkNodes id n nodes) :
    p.1 ≠ id ∧ ∃ v, (p.1, v) ∈ nodes ∧ p.2.id = v.id ∧
      p.2.bag_upper = v.bag_upper := by
  unfold unlinkNodes at h
  obtain ⟨h2, hne⟩ := mem_removeKV h
  refine ⟨hne, ?_⟩
  have step : ∀ (k : Nat) (f : Node → Node)
      (hf : ∀ v, (f v).id = v.id ∧ (f v).bag_upper = v.bag_upper)
      (l : List (Nat × Node)) (q : Nat × Node), q ∈ updateKV k f l →
      ∃ v, (q.1, v) ∈ l ∧ q.2.id = v.id ∧ q.2.bag_upper = v.bag_upper := by
    intro k f hf l q hq
    rcases mem_updateKV hq with h' | ⟨hk, v, hv, hp⟩
    · exact ⟨q.2, h', rfl, rfl⟩
    · refine ⟨v, by rw [hk]; exact hv, ?_, ?_⟩
      · rw [hp]
        exact (hf v).1
      · rw [hp]
        exact (hf v).2
  rcases hnx : n.next with _ | qn <;> rcases hpv : n.prev with _ | pn <;>
    simp only [hnx, hpv] at h2
  · exact ⟨p.2, h2, rfl, rfl⟩
  · exact step pn (fun m => { m with next := none }) (fun v => ⟨rfl, rfl⟩) _ _ h2
  · exact step qn (fun m => { m with prev := none }) (fun v => ⟨rfl, rfl⟩) _ _ h2
  · obtain ⟨v, hv, hid2, hu2⟩ := step qn (fun m => { m with prev := some pn })
      (fun v => ⟨rfl, rfl⟩) _ _ h2
    obtain ⟨w, hw, hid3, hu3⟩ := step pn (fun m => { m with next := some qn })
      (fun v => ⟨rfl, rfl⟩) _ _ hv
    exact ⟨w, hw, by rw [hid2, hid3], by rw [hu2, hu3]⟩

/-- What `remove` of a present identity guarantees on a sane state. -/
structure RemoveOutcome (s : State) (id : Nat) (n : Node) (sOut : State) : Prop where
  sane : SanityProps sOut
  members_bag : bagMembers sOut n.bag_upper = (bagMembers s n.bag_upper).erase id
  members_old : ∀ u', u' ≠ n.bag_upper → bagMembers sOut u' = bagMembers s u'
  counter : sOut.counter + 1 = s.counter
  events : sOut.events = s.events
  keys : sOut.nodes.map Prod.fst = (s.nodes.map Prod.fst).filter (fun x => x ≠ id)
  node_gone : lookup sOut.nodes id = none
  bag_gone : bagMembers s n.bag_upper = [id] → lookup sOut.bags n.bag_upper = none
  bag_stays : bagMembers s n.bag_upper ≠ [id] →
    ∃ b', lookup sOut.bags n.bag_upper = some b'
  nodes_other : ∀ x, x ≠ id → (lookup sOut.nodes x).map
      (fun m => (m.bag_upper, m.voter_type)) =
    (lookup s.nodes x).map (fun m => (m.bag_upper, m.voter_type))
  bags_other : ∀ u', u' ≠ n.bag_upper → lookup sOut.bags u' = lookup s.bags u'

theorem remove_spec {s : State} (sp : SanityProps s) {id : Nat} {n : Node}
    (hn : lookup s.nodes id = some n) : RemoveOutcome s id n (remove id s) := by
  obtain ⟨b, hb, hidmem⟩ := sanity_node_in_own_bag sp hn
  have hub : (n.bag_upper, b) ∈ s.bags := lookup_mem hb
  have hlenl := sanity_entry_chain_length sp hub
  have hndl := sanity_entry_chain_nodup sp hub
  obtain ⟨hnel, hheadl, htaill, hlinksl⟩ := sanity_entry_chain sp hub
  set l := chainFrom s.nodes s.nodes.length (n.bag_upper, b).2.head with hldef
  have hlbm : bagMembers s n.bag_upper = l := bagMembers_eq_chain hb
  rw [hlbm] at hidmem
  have hsubl : l ⊆ s.nodes.map Prod.fst := checkLinks_subset_keys hlinksl
  obtain ⟨l₁, l₂, hlsplit⟩ := List.append_of_mem hidmem
  have hnd_split : (l₁ ++ id :: l₂).Nodup := hlsplit ▸ hndl
  have hlinks_split : checkLinks s.nodes n.bag_upper none (l₁ ++ id :: l₂) none
      = true := hlsplit ▸ hlinksl
  have hdecomp := hlinks_split
  rw [checkLinks_append, Bool.and_eq_true] at hdecomp
  obtain ⟨hA1, hA2⟩ := hdecomp
  obtain ⟨n', hn', hnid2, hnu2, hnprev, hnnext, hA3⟩ := checkLinks_cons_iff.mp hA2
  rw [hn] at hn'
  cases Option.some.inj hn'
  have hnsplit := hnd_split
  rw [List.nodup_append] at hnsplit
  obtain ⟨hnd₁, hndr, hdisj12⟩ := hnsplit
  rw [List.nodup_cons] at hndr
  obtain ⟨hid_l₂, hnd₂⟩ := hndr
  have hid_l₁ : id ∉ l₁ := fun hmem => hdisj12 hmem (by simp)
  have hunlink : checkLinks (unlinkNodes id n s.nodes) n.bag_upper none
      (l₁ ++ l₂) none = true := checkLinks_unlink hnd_split hlinks_split hn
  have hkeysN : (unlinkNodes id n s.nodes).map Prod.fst =
      (s.nodes.map Prod.fst).filter (fun x => x ≠ id) := keys_unlinkNodes
  have hidkeys : id ∈ s.nodes.map Prod.fst := lookup_isSome_iff.mp (by simp [hn])
  have hlenN : (unlinkNodes id n s.nodes).length + 1 = s.nodes.length := by
    have h1 := length_filter_ne sp.nodes_nodup hidkeys
    have h2 : ((unlinkNodes id n s.nodes).map Prod.fst).length + 1 =
        (s.nodes.map Prod.fst).length := by
      rw [hkeysN]
      exact h1
    simpa using h2
  have hcongO : ∀ x, x ∉ l →
      lookup (unlinkNodes id n s.nodes) x = lookup s.nodes x := by
    intro x hx
    refine lookup_unlinkNodes_of_ne (fun hh => hx (hh ▸ hidmem)) ?_ ?_
    · rw [hnprev]
      unfold lastPtr
      cases hgl : l₁.getLast? with
      | none => exact Option.noConfusion
      | some p =>
          intro hh
          obtain ⟨l₁', hl₁'⟩ := exists_concat_of_getLast? hgl
          refine hx ?_
          rw [hlsplit]
          refine List.mem_append_left _ ?_
          rw [← Option.some.inj hh, hl₁']
          simp
    · rw [hnnext]
      cases l₂ with
      | nil => exact Option.noConfusion
      | cons q l₂' =>
          rw [nextPtr_cons]
          intro hh
          refine hx ?_
          rw [hlsplit, ← Option.some.inj hh]
          exact List.mem_append_right _
            (List.mem_cons_of_mem id (List.mem_cons_self q l₂'))
  have hlfuel : (l₁ ++ l₂).length ≤ (unlinkNodes id n s.nodes).length := by
    have h1 : l.length ≤ s.nodes.length := by simpa using hlenl
    rw [hlsplit] at h1
    simp only [List.length_append, List.length_cons] at h1 ⊢
    omega
  have hnewchain : chainFrom (unlinkNodes id n s.nodes)
      (unlinkNodes id n s.nodes).length (l₁ ++ l₂).head? = l₁ ++ l₂ :=
    chainFrom_of_checkLinks hunlink hlfuel
  have herase : l.erase id = l₁ ++ l₂ := by
    rw [hlsplit, List.erase_append_right _ hid_l₁, List.erase_cons_head]
  have hbh : b.head = l.head? := hheadl
  have hbt : b.tail = l.getLast? := htaill
  have hH : (if b.head = some id then n.next else b.head) = (l₁ ++ l₂).head? := by
    cases l₁ with
    | nil =>
        have hhid : b.head = some id := by
          rw [hbh, hlsplit]
          rfl
        rw [if_pos hhid, hnnext, nextPtr_eq_head?]
        rfl
    | cons h₁ l₁' =>
        have hh₁ : b.head = some h₁ := by
          rw [hbh, hlsplit]
          rfl
        have hne : ¬ b.head = some id := by
          rw [hh₁]
          intro hh
          refine hid_l₁ ?_
          rw [← Option.some.inj hh]
          exact List.mem_cons_self h₁ l₁'
        rw [if_neg hne, hh₁]
        rfl
  have hT : (if b.tail = some id then n.prev else b.tail) =
      (l₁ ++ l₂).getLast? := by
    rcases List.eq_nil_or_concat' l₂ with rfl | ⟨l₂', q, rfl⟩
    · have htid : b.tail = some id := by
        rw [hbt, hlsplit]
        show (l₁ ++ [id]).getLast? = some id
        rw [List.getLast?_concat]
      rw [if_pos htid, hnprev, lastPtr_none_eq_getLast?, List.append_nil]
    · have hq_mem : q ∈ l₂' ++ [q] := by simp
      have hq_ne : q ≠ id := fun hh => hid_l₂ (hh ▸ hq_mem)
      have htq : b.tail = some q := by
        rw [hbt, hlsplit]
        rw [show l₁ ++ id :: (l₂' ++ [q]) = (l₁ ++ id :: l₂') ++ [q] from by simp]
        rw [List.getLast?_concat]
      have hne : ¬ b.tail = some id := by
        rw [htq]
        intro hh
        exact hq_ne (Option.some.inj hh)
      rw [if_neg hne, htq]
      rw [show l₁ ++ (l₂' ++ [q]) = (l₁ ++ l₂') ++ [q] from by simp]
      rw [List.getLast?_concat]
  obtain ⟨B₁, B₂, hsplitB, huB₁, huB₂⟩ := assoc_split sp.bags_nodup hb
  have hmemB₁ : ∀ p ∈ B₁, p ∈ s.bags ∧ p.1 ≠ n.bag_upper := by
    intro p hp
    refine ⟨by rw [hsplitB]; exact List.mem_append_left _ hp, ?_⟩
    intro hh
    exact huB₁ (hh ▸ List.mem_map.mpr ⟨p, hp, rfl⟩)
  have hmemB₂ : ∀ p ∈ B₂, p ∈ s.bags ∧ p.1 ≠ n.bag_upper := by
    intro p hp
    constructor
    · rw [hsplitB]
      exact List.mem_append_right _ (List.mem_cons_of_mem _ hp)
    · intro hh
      exact huB₂ (hh ▸ List.mem_map.mpr ⟨p, hp, rfl⟩)
  have hold_chain : ∀ p ∈ s.bags, p.1 ≠ n.bag_upper →
      chainFrom (unlinkNodes id n s.nodes) (unlinkNodes id n s.nodes).length
        p.2.head = chainFrom s.nodes s.nodes.length p.2.head := by
    intro p hp hpu
    have hdisjp := sanity_chains_pairwise_disjoint sp p hp (n.bag_upper, b) hub
      (fun hh => hpu (by rw [hh]))
    obtain ⟨hnep, hheadp, htailp, hlinksp⟩ := sanity_entry_chain sp hp
    set lp := chainFrom s.nodes s.nodes.length p.2.head with hlpdef
    have hsub_new : lp ⊆ (unlinkNodes id n s.nodes).map Prod.fst := by
      intro x hx
      rw [hkeysN]
      refine List.mem_filter.mpr ⟨checkLinks_subset_keys hlinksp hx, ?_⟩
      simp only [ne_eq, decide_eq_true_eq]
      intro hh
      exact (hdisjp x hx) (hh ▸ hidmem)
    have hlenp : lp.length ≤ (unlinkNodes id n s.nodes).length := by
      have := nodup_subset_length_le (sanity_entry_chain_nodup sp hp) hsub_new
      simpa using this
    rw [hheadp]
    exact chainFrom_congr_of_checkLinks hlinksp
      (fun x hx => hcongO x (fun hxl => (hdisjp x hx) hxl)) hlenp
  have hrec_nodes : ∀ p ∈ unlinkNodes id n s.nodes,
      p.2.id = p.1 ∧ lookup (removeKV id s.bagFor) p.1 = some p.2.bag_upper := by
    intro p hp
    obtain ⟨hpne, v, hv, hpid, hpu⟩ := mem_unlinkNodes hp
    obtain ⟨h1, h2⟩ := sp.node_records (p.1, v) hv
    refine ⟨by rw [hpid]; exact h1, ?_⟩
    rw [lookup_removeKV_ne hpne, hpu]
    exact h2
  have hnodes_other : ∀ x, x ≠ id → (lookup (unlinkNodes id n s.nodes) x).map
      (fun m => (m.bag_upper, m.voter_type)) =
      (lookup s.nodes x).map (fun m => (m.bag_upper, m.voter_type)) := by
    intro x hx
    by_cases hxl : x ∈ l
    · -- x is on the chain: it may be the patched neighbour
      by_cases hpx : n.prev = some x
      · have hqx : n.next ≠ some x := by
          intro hh
          rw [hnprev] at hpx
          rw [hnnext] at hh
          unfold lastPtr at hpx
          cases hgl : l₁.getLast? with
          | none => rw [hgl] at hpx; exact Option.noConfusion hpx
          | some p =>
              rw [hgl] at hpx
              obtain ⟨l₁', hl₁'⟩ := exists_concat_of_getLast? hgl
              cases l₂ with
              | nil => exact Option.noConfusion hh
              | cons qq l₂' =>
                  rw [nextPtr_cons] at hh
                  have hxp : p = x := Option.some.inj hpx
                  have hxq : qq = x := Option.some.inj hh
                  have hmem1 : p ∈ l₁ := by
                    rw [hl₁']
                    simp
                  have hmem2 : p ∈ id :: qq :: l₂' := by
                    rw [hxp, ← hxq]
                    exact List.mem_cons_of_mem id (List.mem_cons_self qq l₂')
                  exact hdisj12 hmem1 hmem2
        rcases hlx : lookup s.nodes x with _ | nx
        · exact absurd (lookup_eq_none_iff.mp hlx) (by
            simp only [Decidable.not_not]
            exact hsubl hxl)
        · rw [lookup_unlinkNodes_prev hpx hx hqx, hlx]
          rfl
      · by_cases hqx : n.next = some x
        · rcases hlx : lookup s.nodes x with _ | nx
          · exact absurd (lookup_eq_none_iff.mp hlx) (by
              simp only [Decidable.not_not]
              exact hsubl hxl)
          · rw [lookup_unlinkNodes_next hqx hx hpx, hlx]
            rfl
        · rw [lookup_unlinkNodes_of_ne hx hpx hqx]
    · rw [hcongO x hxl]
  have hold_links : ∀ p ∈ s.bags, p.1 ≠ n.bag_upper →
      checkLinks (unlinkNodes id n s.nodes) p.1 none
        (chainFrom s.nodes s.nodes.length p.2.head) none = true := by
    intro p hp hpu
    have hdisjp := sanity_chains_pairwise_disjoint sp p hp (n.bag_upper, b) hub
      (fun hh => hpu (by rw [hh]))
    have hlinksp := (sanity_entry_chain sp hp).2.2.2
    rw [checkLinks_congr (fun x hx => hcongO x (fun hxl => (hdisjp x hx) hxl))]
    exact hlinksp
  have hlb : chainFrom s.nodes s.nodes.length b.head = l := hldef.symm
  have hfl_old : (chainsOf s).flatten =
      (B₁.map (fun p => chainFrom s.nodes s.nodes.length p.2.head)).flatten ++
      (l ++ (B₂.map (fun p => chainFrom s.nodes s.nodes.length p.2.head)).flatten) := by
    unfold chainsOf
    rw [hsplitB]
    simp only [List.map_append, List.map_cons, List.flatten_append, List.flatten_cons]
  have hlenbf : lookup s.bagFor id = some n.bag_upper :=
    (sp.node_records (id, n) (lookup_mem hn)).2
  have hcounter : s.counter - 1 + 1 = s.counter := by
    have h1 := sp.counter_eq
    omega
  have hcounter_eq : s.counter - 1 = (unlinkNodes id n s.nodes).length := by
    have h1 := sp.counter_eq
    omega
  have hbagFor_len : (removeKV id s.bagFor).length =
      (unlinkNodes id n s.nodes).length := by
    have h1 := length_removeKV_mem sp.bagFor_nodup hlenbf
    have h2 := sp.bagFor_len
    omega
  have hkeysFilter : (unlinkNodes id n s.nodes).map Prod.fst =
      (s.nodes.map Prod.fst).filter (fun x => x ≠ id) := keys_unlinkNodes
  by_cases hgone : l₁ = [] ∧ l₂ = []
  · obtain ⟨rfl, rfl⟩ := hgone
    have hlid : l = [id] := by
      rw [hlsplit]
      rfl
    have hs' : remove id s =
        { counter := s.counter - 1
          nodes := unlinkNodes id n s.nodes
          bagFor := removeKV id s.bagFor
          bags := removeKV n.bag_upper s.bags
          events := s.events } := by
      unfold remove
      rw [hn]
      show ({ counter := s.counter - 1
              nodes := unlinkNodes id n s.nodes
              bagFor := removeKV id s.bagFor
              bags := removeBagOf id n
                ((lookup s.bags n.bag_upper).getD ⟨none, none⟩) s.bags
              events := s.events } : State) = _
      rw [hb]
      simp only [Option.getD_some]
      rw [removeBagOf_gone (by simpa using hH) (by simpa using hT)]
    rw [hs']
    have hchains' : (B₁ ++ B₂).map (fun p => chainFrom (unlinkNodes id n s.nodes)
        (unlinkNodes id n s.nodes).length p.2.head) =
        B₁.map (fun p => chainFrom s.nodes s.nodes.length p.2.head) ++
        B₂.map (fun p => chainFrom s.nodes s.nodes.length p.2.head) := by
      rw [List.map_append]
      congr 1
      · exact List.map_congr_left (fun p hp =>
          hold_chain p (hmemB₁ p hp).1 (hmemB₁ p hp).2)
      · exact List.map_congr_left (fun p hp =>
          hold_chain p (hmemB₂ p hp).1 (hmemB₂ p hp).2)
    have hbagsBB : removeKV n.bag_upper s.bags = B₁ ++ B₂ := by
      rw [hsplitB]
      exact removeKV_split huB₁ huB₂
    refine
      { sane := ?_
        members_bag := ?_
        members_old := ?_
        counter := hcounter
        events := rfl
        keys := hkeysFilter
        node_gone := lookup_unlinkNodes_self
        bag_gone := fun _ => lookup_removeKV_self
        bag_stays := fun hne => absurd (hlbm.trans hlid) hne
        nodes_other := hnodes_other
        bags_other := fun u' hu' => lookup_removeKV_ne hu' }
    · refine
        { counter_eq := hcounter_eq
          nodes_nodup := by
            rw [hkeysFilter]
            exact sp.nodes_nodup.filter _
          bags_nodup := by
            show ((removeKV n.bag_upper s.bags).map Prod.fst).Nodup
            rw [keys_removeKV]
            exact sp.bags_nodup.filter _
          bagFor_nodup := by
            show ((removeKV id s.bagFor).map Prod.fst).Nodup
            rw [keys_removeKV]
            exact sp.bagFor_nodup.filter _
          bagFor_len := hbagFor_len
          node_records := hrec_nodes
          bags_ok := ?_
          chains_nodup := ?_
          chains_len := ?_ }
      · intro p hp
        obtain ⟨hpmem, hpne⟩ := mem_removeKV hp
        obtain ⟨hnep, hheadp, htailp, hlk⟩ := sanity_entry_chain sp hpmem
        refine checkBag_of_facts (l := chainFrom s.nodes s.nodes.length p.2.head)
          ?_ hnep hheadp htailp (hold_links p hpmem hpne)
        have := hold_chain p hpmem hpne
        rw [hheadp] at this ⊢
        exact this
      · show ((removeKV n.bag_upper s.bags).map
          (fun p => chainFrom _ _ p.2.head)).flatten.Nodup
        rw [hbagsBB, hchains', List.flatten_append]
        have hnd_old := sp.chains_nodup
        rw [hfl_old] at hnd_old
        have hsub2 : List.Sublist
            ((B₁.map (fun p => chainFrom s.nodes s.nodes.length p.2.head)).flatten ++
              (B₂.map (fun p => chainFrom s.nodes s.nodes.length p.2.head)).flatten)
            ((B₁.map (fun p => chainFrom s.nodes s.nodes.length p.2.head)).flatten ++
              (l ++ (B₂.map (fun p =>
                chainFrom s.nodes s.nodes.length p.2.head)).flatten)) := by
          refine List.Sublist.append_left ?_ _
          rw [hlid]
          exact List.sublist_cons_self id _
        exact List.Sublist.nodup hsub2 hnd_old
      · show ((removeKV n.bag_upper s.bags).map
          (fun p => chainFrom _ _ p.2.head)).flatten.length = _
        rw [hbagsBB, hchains', List.flatten_append]
        have hlen_old := sp.chains_len
        rw [hfl_old] at hlen_old
        have hlen1 : l.length = 1 := by
          rw [hlid]
          rfl
        simp only [List.length_append] at hlen_old ⊢
        omega
    · show bagMembers _ n.bag_upper = (bagMembers s n.bag_upper).erase id
      rw [hlbm, herase]
      unfold bagMembers
      show (match lookup (removeKV n.bag_upper s.bags) n.bag_upper with
        | none => []
        | some b => chainFrom _ _ b.head) = [] ++ []
      rw [lookup_removeKV_self]
      rfl
    · intro u' hu'
      unfold bagMembers
      show (match lookup (removeKV n.bag_upper s.bags) u' with
        | none => []
        | some b => chainFrom _ _ b.head) = _
      rw [lookup_removeKV_ne hu']
      rcases hub' : lookup s.bags u' with _ | b'
      · rfl
      · exact hold_chain (u', b') (lookup_mem hub') hu'
  · -- the bag survives
    have hne_cat : l₁ ++ l₂ ≠ [] := by
      intro hcat
      rw [List.append_eq_nil] at hcat
      exact hgone hcat
    rcases hcat : l₁ ++ l₂ with _ | ⟨h, rest⟩
    · exact absurd hcat hne_cat
    have hH' : (if b.head = some id then n.next else b.head) = some h := by
      rw [hH, hcat]
      rfl
    have hs' : remove id s =
        { counter := s.counter - 1
          nodes := unlinkNodes id n s.nodes
          bagFor := removeKV id s.bagFor
          bags := insertKV n.bag_upper
            ⟨(l₁ ++ l₂).head?, (l₁ ++ l₂).getLast?⟩ s.bags
          events := s.events } := by
      unfold remove
      rw [hn]
      show ({ counter := s.counter - 1
              nodes := unlinkNodes id n s.nodes
              bagFor := removeKV id s.bagFor
              bags := removeBagOf id n
                ((lookup s.bags n.bag_upper).getD ⟨none, none⟩) s.bags
              events := s.events } : State) = _
      rw [hb]
      simp only [Option.getD_some]
      rw [removeBagOf_stays hH', hT,
        show some h = (l₁ ++ l₂).head? from by rw [hcat]; rfl]
    rw [hs']
    have hbags' : insertKV n.bag_upper
        ((⟨(l₁ ++ l₂).head?, (l₁ ++ l₂).getLast?⟩ : Bag)) s.bags =
        B₁ ++ (n.bag_upper,
          (⟨(l₁ ++ l₂).head?, (l₁ ++ l₂).getLast?⟩ : Bag)) :: B₂ := by
      rw [insertKV_of_mem (by simp [hb]), hsplitB]
      exact replaceKV_split huB₁ huB₂
    have hlookBags : lookup (B₁ ++ (n.bag_upper,
        (⟨(l₁ ++ l₂).head?, (l₁ ++ l₂).getLast?⟩ : Bag)) :: B₂) n.bag_upper =
        some ⟨(l₁ ++ l₂).head?, (l₁ ++ l₂).getLast?⟩ := by
      rw [lookup_append_right_of_none (lookup_eq_none_iff.mpr huB₁),
        lookup_cons_self]
    have hchains' : (B₁ ++ (n.bag_upper,
        (⟨(l₁ ++ l₂).head?, (l₁ ++ l₂).getLast?⟩ : Bag)) :: B₂).map
        (fun p => chainFrom (unlinkNodes id n s.nodes)
          (unlinkNodes id n s.nodes).length p.2.head) =
        B₁.map (fun p => chainFrom s.nodes s.nodes.length p.2.head) ++
        (l₁ ++ l₂) :: B₂.map (fun p => chainFrom s.nodes s.nodes.length p.2.head) := by
      rw [List.map_append, List.map_cons]
      congr 1
      · exact List.map_congr_left (fun p hp =>
          hold_chain p (hmemB₁ p hp).1 (hmemB₁ p hp).2)
      · have hmidc : chainFrom (unlinkNodes id n s.nodes)
            (unlinkNodes id n s.nodes).length
            ((⟨(l₁ ++ l₂).head?, (l₁ ++ l₂).getLast?⟩ : Bag)).head = l₁ ++ l₂ :=
          hnewchain
        rw [List.cons_eq_cons]
        exact ⟨hmidc, List.map_congr_left (fun p hp =>
          hold_chain p (hmemB₂ p hp).1 (hmemB₂ p hp).2)⟩
    refine
      { sane := ?_
        members_bag := ?_
        members_old := ?_
        counter := hcounter
        events := rfl
        keys := hkeysFilter
        node_gone := lookup_unlinkNodes_self
        bag_gone := ?_
        bag_stays := fun _ => ⟨⟨(l₁ ++ l₂).head?, (l₁ ++ l₂).getLast?⟩,
          by rw [hbags']; exact hlookBags⟩
        nodes_other := hnodes_other
        bags_other := fun u' hu' => lookup_insertKV_ne hu' }
    · refine
        { counter_eq := hcounter_eq
          nodes_nodup := by
            rw [hkeysFilter]
            exact sp.nodes_nodup.filter _
          bags_nodup := by
            show ((insertKV n.bag_upper _ s.bags).map Prod.fst).Nodup
            rw [keys_insertKV_mem (by simp [hb])]
            exact sp.bags_nodup
          bagFor_nodup := by
            show ((removeKV id s.bagFor).map Prod.fst).Nodup
            rw [keys_removeKV]
            exact sp.bagFor_nodup.filter _
          bagFor_len := hbagFor_len
          node_records := hrec_nodes
          bags_ok := ?_
          chains_nodup := ?_
          chains_len := ?_ }
      · intro p hp
        rw [hbags'] at hp
        rcases List.mem_append.mp hp with hp' | hp'
        · obtain ⟨hpmem, hpne⟩ := hmemB₁ p hp'
          obtain ⟨hnep, hheadp, htailp, hlk⟩ := sanity_entry_chain sp hpmem
          refine checkBag_of_facts (l := chainFrom s.nodes s.nodes.length p.2.head)
            ?_ hnep hheadp htailp (hold_links p hpmem hpne)
          have := hold_chain p hpmem hpne
          rw [hheadp] at this ⊢
          exact this
        · rcases List.mem_cons.mp hp' with rfl | hp''
          · refine checkBag_of_facts (l := l₁ ++ l₂) ?_ hne_cat rfl rfl hunlink
            exact hnewchain
          · obtain ⟨hpmem, hpne⟩ := hmemB₂ p hp''
            obtain ⟨hnep, hheadp, htailp, hlk⟩ := sanity_entry_chain sp hpmem
            refine checkBag_of_facts (l := chainFrom s.nodes s.nodes.length p.2.head)
              ?_ hnep hheadp htailp (hold_links p hpmem hpne)
            have := hold_chain p hpmem hpne
            rw [hheadp] at this ⊢
            exact this
      · show ((insertKV n.bag_upper _ s.bags).map
          (fun p => chainFrom _ _ p.2.head)).flatten.Nodup
        rw [hbags', hchains', List.flatten_append, List.flatten_cons]
        have hnd_old := sp.chains_nodup
        rw [hfl_old] at hnd_old
        have hmid : List.Sublist (l₁ ++ l₂) l := by
          rw [hlsplit]
          exact List.Sublist.append_left (List.sublist_cons_self id l₂) l₁
        have hsub2 : List.Sublist
            ((B₁.map (fun p => chainFrom s.nodes s.nodes.length p.2.head)).flatten ++
              ((l₁ ++ l₂) ++ (B₂.map (fun p =>
                chainFrom s.nodes s.nodes.length p.2.head)).flatten))
            ((B₁.map (fun p => chainFrom s.nodes s.nodes.length p.2.head)).flatten ++
              (l ++ (B₂.map (fun p =>
                chainFrom s.nodes s.nodes.length p.2.head)).flatten)) := by
          refine List.Sublist.append_left ?_ _
          exact List.Sublist.append hmid (List.Sublist.refl _)
        exact List.Sublist.nodup hsub2 hnd_old
      · show ((insertKV n.bag_upper _ s.bags).map
          (fun p => chainFrom _ _ p.2.head)).flatten.length = _
        rw [hbags', hchains', List.flatten_append, List.flatten_cons]
        have hlen_old := sp.chains_len
        rw [hfl_old] at hlen_old
        have hlen1 : l.length = l₁.length + l₂.length + 1 := by
          rw [hlsplit]
          simp only [List.length_append, List.length_cons]
          omega
        simp only [List.length_append] at hlen_old ⊢
        omega
    · show bagMembers _ n.bag_upper = (bagMembers s n.bag_upper).erase id
      rw [hlbm, herase]
      unfold bagMembers
      show (match lookup (insertKV n.bag_upper
          (⟨(l₁ ++ l₂).head?, (l₁ ++ l₂).getLast?⟩ : Bag) s.bags) n.bag_upper with
        | none => []
        | some b => chainFrom _ _ b.head) = l₁ ++ l₂
      rw [lookup_insertKV_self]
      exact hnewchain
    · intro u' hu'
      unfold bagMembers
      show (match lookup (insertKV n.bag_upper
          (⟨(l₁ ++ l₂).head?, (l₁ ++ l₂).getLast?⟩ : Bag) s.bags) u' with
        | none => []
        | some b => chainFrom _ _ b.head) = _
      rw [lookup_insertKV_ne hu']
      rcases hub' : lookup s.bags u' with _ | b'
      · rfl
      · exact hold_chain (u', b') (lookup_mem hub') hu'
    · intro heq
      exfalso
      have h1 : l = [id] := hlbm.symm.trans heq
      rw [hlsplit] at h1
      have h2 : (l₁ ++ id :: l₂).length = 1 := by
        rw [h1]
        rfl
      simp only [List.length_append, List.length_cons] at h2
      refine hgone ⟨?_, ?_⟩
      · exact List.eq_nil_of_length_eq_zero (by omega)
      · exact List.eq_nil_of_length_eq_zero (by omega)
/-! ## Rebagging (C1) -/

theorem sanityProps_set_events {s : State} {ev : List (Nat × Nat × Nat)}
    (sp : SanityProps s) : SanityProps { s with events := ev } :=
  { counter_eq := sp.counter_eq
    nodes_nodup := sp.nodes_nodup
    bags_nodup := sp.bags_nodup
    bagFor_nodup := sp.bagFor_nodup
    bagFor_len := sp.bagFor_len
    node_records := sp.node_records
    bags_ok := sp.bags_ok
    chains_nodup := sp.chains_nodup
    chains_len := sp.chains_len }

theorem bagMembers_set_events {s : State} {ev : List (Nat × Nat × Nat)} {u : Nat} :
    bagMembers { s with events := ev } u = bagMembers s u := rfl

/-- C1: when the oracle weight of a present voter resolves to a band other
than its stored one, `do_rebag` returns `some (old, new)`, the voter ends up
at the tail of the new band's chain (both in the chain and in the bag's
`tail` pointer), is absent from the old band's chain, the old bag is deleted
when it became empty, a `Rebagged(id, old, new)` event is deposited, and the
structure stays sane. -/
theorem c1_rebag_moves (ts : List Nat) (weight_of : Nat → Nat) (id : Nat)
    (s : State) (n : Node) (hs : sanity_check s = Except.ok ())
    (hn : lookup s.nodes id = some n)
    (hne : resolve ts (weight_of id) ≠ n.bag_upper) :
    (do_rebag ts weight_of id s).1 =
      some (n.bag_upper, resolve ts (weight_of id)) ∧
    bagMembers (do_rebag ts weight_of id s).2 (resolve ts (weight_of id)) =
      bagMembers s (resolve ts (weight_of id)) ++ [id] ∧
    (∃ b', lookup (do_rebag ts weight_of id s).2.bags
        (resolve ts (weight_of id)) = some b' ∧ b'.tail = some id) ∧
    id ∉ bagMembers (do_rebag ts weight_of id s).2 n.bag_upper ∧
    (bagMembers s n.bag_upper = [id] →
      lookup (do_rebag ts weight_of id s).2.bags n.bag_upper = none) ∧
    (do_rebag ts weight_of id s).2.events =
      s.events ++ [(id, n.bag_upper, resolve ts (weight_of id))] ∧
    sanity_check (do_rebag ts weight_of id s).2 = Except.ok () := by
  have sp := sanity_check_ok_iff.mp hs
  have hup : update_position_for ts weight_of id s =
      (some (n.bag_upper, resolve ts (weight_of id)),
        insertAt id n.voter_type (resolve ts (weight_of id)) (remove id s)) := by
    unfold update_position_for
    rw [hn]
    simp only [if_neg (show ¬(n.bag_upper = resolve ts (weight_of id)) from
      fun hh => hne hh.symm)]
  have hdo : do_rebag ts weight_of id s =
      (some (n.bag_upper, resolve ts (weight_of id)),
        { insertAt id n.voter_type (resolve ts (weight_of id)) (remove id s) with
            events := (insertAt id n.voter_type (resolve ts (weight_of id))
              (remove id s)).events ++
              [(id, n.bag_upper, resolve ts (weight_of id))] }) := by
    unfold do_rebag
    rw [hup]
  have RO := remove_spec sp hn
  have Ins := @insertAt_spec _ RO.sane id n.voter_type
    (resolve ts (weight_of id)) RO.node_gone
  rw [hdo]
  refine ⟨rfl, ?_, ?_, ?_, ?_, ?_, ?_⟩
  · rw [bagMembers_set_events, Ins.members_new,
      RO.members_old _ hne]
  · obtain ⟨b', hb', ht'⟩ := Ins.bag
    exact ⟨b', hb', ht'⟩
  · rw [bagMembers_set_events, Ins.members_old _ (fun hh => hne hh.symm),
      RO.members_bag]
    obtain ⟨b, hb, hidmem⟩ := sanity_node_in_own_bag sp hn
    have hnd : (bagMembers s n.bag_upper).Nodup := by
      rw [bagMembers_eq_chain hb]
      exact sanity_entry_chain_nodup sp (lookup_mem hb)
    exact fun hc => (List.Nodup.mem_erase_iff hnd).mp hc |>.1 rfl
  · intro hmem
    show lookup (insertAt id n.voter_type (resolve ts (weight_of id))
      (remove id s)).bags n.bag_upper = none
    rw [Ins.bags_other _ (fun hh => hne hh.symm)]
    exact RO.bag_gone hmem
  · show (insertAt id n.voter_type (resolve ts (weight_of id))
      (remove id s)).events ++ _ = _
    rw [Ins.events, RO.events]
  · exact sanity_check_ok_iff.mpr (sanityProps_set_events Ins.sane)

/-- Concrete one-voter state for the C1 witness: voter `1` inserted with
weight `5` under thresholds `[10, 20]`, hence in bag `10`. -/
def w1State : State := insert_as [10, 20] (fun _ => 5) 1 .nominator emptyState

/-- Witness for C1: voter `1` (bag `10`) is rebagged under the oracle weight
`25`, which resolves to the top band. -/
theorem c1_rebag_moves_witness :
    sanity_check w1State = Except.ok () ∧
    lookup w1State.nodes 1 = some ⟨1, none, none, 10, .nominator⟩ ∧
    resolve [10, 20] 25 ≠ 10 ∧
    ((do_rebag [10, 20] (fun _ => 25) 1 w1State).1 =
        some (10, resolve [10, 20] 25) ∧
      bagMembers (do_rebag [10, 20] (fun _ => 25) 1 w1State).2
          (resolve [10, 20] 25) =
        bagMembers w1State (resolve [10, 20] 25) ++ [1] ∧
      (∃ b', lookup (do_rebag [10, 20] (fun _ => 25) 1 w1State).2.bags
          (resolve [10, 20] 25) = some b' ∧ b'.tail = some 1) ∧
      1 ∉ bagMembers (do_rebag [10, 20] (fun _ => 25) 1 w1State).2 10 ∧
      (bagMembers w1State 10 = [1] →
        lookup (do_rebag [10, 20] (fun _ => 25) 1 w1State).2.bags 10 = none) ∧
      (do_rebag [10, 20] (fun _ => 25) 1 w1State).2.events =
        w1State.events ++ [(1, 10, resolve [10, 20] 25)] ∧
      sanity_check (do_rebag [10, 20] (fun _ => 25) 1 w1State).2 =
        Except.ok ()) :=
  ⟨by rfl, by decide, by decide,
    c1_rebag_moves [10, 20] (fun _ => 25) 1 w1State
      ⟨1, none, none, 10, .nominator⟩ (by rfl) (by decide) (by decide)⟩

/-! ## Sanity preservation for every public operation (C4) -/

theorem do_rebag_eq (ts : List Nat) (wo : Nat → Nat) (id : Nat) (s : State) :
    do_rebag ts wo id s =
      match (update_position_for ts wo id s).1 with
      | some ft => ((update_position_for ts wo id s).1,
          { (update_position_for ts wo id s).2 with
              events := (update_position_for ts wo id s).2.events ++
                [(id, ft.1, ft.2)] })
      | none => update_position_for ts wo id s := rfl

theorem insert_as_sane {ts : List Nat} {wo : Nat → Nat} {id : Nat}
    {role : VoterType} {s : State} (sp : SanityProps s) :
    SanityProps (insert_as ts wo id role s) := by
  unfold insert_as
  split
  · exact sp
  · next h => exact (insertAt_spec sp (Option.not_isSome_iff_eq_none.mp h)).sane

theorem remove_sane {id : Nat} {s : State} (sp : SanityProps s) :
    SanityProps (remove id s) := by
  rcases hn : lookup s.nodes id with _ | n
  · have h : remove id s = s := by unfold remove; rw [hn]
    rw [h]; exact sp
  · exact (remove_spec sp hn).sane

theorem update_position_sane {ts : List Nat} {wo : Nat → Nat} {id : Nat}
    {s : State} (sp : SanityProps s) :
    SanityProps (update_position_for ts wo id s).2 := by
  rcases hn : lookup s.nodes id with _ | n
  · have h : update_position_for ts wo id s = (none, s) := by
      unfold update_position_for; rw [hn]
    rw [h]; exact sp
  · by_cases hb : n.bag_upper = resolve ts (wo id)
    · have h : update_position_for ts wo id s = (none, s) := by
        unfold update_position_for; rw [hn]; simp only [if_pos hb]
      rw [h]; exact sp
    · have h : update_position_for ts wo id s =
          (some (n.bag_upper, resolve ts (wo id)),
            insertAt id n.voter_type (resolve ts (wo id)) (remove id s)) := by
        unfold update_position_for; rw [hn]; simp only [if_neg hb]
      rw [h]
      exact (insertAt_spec (remove_spec sp hn).sane
        (remove_spec sp hn).node_gone).sane

theorem do_rebag_sane {ts : List Nat} {wo : Nat → Nat} {id : Nat} {s : State}
    (sp : SanityProps s) : SanityProps (do_rebag ts wo id s).2 := by
  rcases hr : (update_position_for ts wo id s).1 with _ | ft
  · rw [do_rebag_eq, hr]
    exact update_position_sane sp
  · rw [do_rebag_eq, hr]
    exact sanityProps_set_events (update_position_sane sp)

theorem applyOp_sane {ts : List Nat} {wo : Nat → Nat} {s : State}
    (sp : SanityProps s) (op : Op) : SanityProps (applyOp ts wo s op) := by
  cases op with
  | ins id role => exact insert_as_sane sp
  | rem id => exact remove_sane sp
  | reb id => exact do_rebag_sane sp

theorem applyOps_sane (ts : List Nat) (wo : Nat → Nat) (ops : List Op)
    {s : State} (sp : SanityProps s) : SanityProps (applyOps ts wo ops s) := by
  induction ops generalizing s with
  | nil => exact sp
  | cons op rest ih => exact ih (applyOp_sane sp op)

theorem migrate_sane {tsNew : List Nat} {wo : Nat → Nat} {s : State}
    (sp : SanityProps s) : SanityProps (migrate tsNew wo s) := by
  unfold migrate
  generalize s.nodes.map Prod.fst = ids
  revert sp
  induction ids generalizing s with
  | nil => exact fun sp => sp
  | cons x rest ih => exact fun sp => ih (update_position_sane sp)

theorem sanityProps_empty : SanityProps emptyState :=
  sanity_check_ok_iff.mp (by rfl)

/-- Modelled from the spec: the voter count obtained bag by bag — the sum,
over every stored `Bag`, of the length of its chain (§3 invariants). -/
def totalBagSize (s : State) : Nat :=
  (s.bags.map (fun p => (bagMembers s p.1).length)).sum

theorem sanity_total_size {s : State} (sp : SanityProps s) :
    totalBagSize s = s.counter := by
  unfold totalBagSize
  have h1 : s.bags.map (fun p => (bagMembers s p.1).length) =
      (chainsOf s).map List.length := by
    unfold chainsOf
    rw [List.map_map]
    refine List.map_congr_left (fun p hp => ?_)
    show (bagMembers s p.1).length =
      (chainFrom s.nodes s.nodes.length p.2.head).length
    rw [bagMembers_eq_chain (mem_lookup sp.bags_nodup hp)]
  rw [h1, ← List.length_flatten, sp.chains_len, sp.counter_eq]

/-- C4: from genesis, any sequence of public operations (inserts, removes,
rebags), optionally followed by a threshold migration, keeps the full sanity
check passing; in particular `CounterForVoters` always equals both the
number of stored nodes and the total membership count of all bags. -/
theorem c4_counter_invariant (ts tsNew : List Nat) (weight_of : Nat → Nat)
    (ops : List Op) :
    sanity_check (applyOps ts weight_of ops emptyState) = Except.ok () ∧
    (applyOps ts weight_of ops emptyState).counter =
      (applyOps ts weight_of ops emptyState).nodes.length ∧
    totalBagSize (applyOps ts weight_of ops emptyState) =
      (applyOps ts weight_of ops emptyState).counter ∧
    sanity_check
        (migrate tsNew weight_of (applyOps ts weight_of ops emptyState)) =
      Except.ok () ∧
    (migrate tsNew weight_of (applyOps ts weight_of ops emptyState)).counter =
      (migrate tsNew weight_of
        (applyOps ts weight_of ops emptyState)).nodes.length ∧
    totalBagSize
        (migrate tsNew weight_of (applyOps ts weight_of ops emptyState)) =
      (migrate tsNew weight_of (applyOps ts weight_of ops emptyState)).counter := by
  have sp := applyOps_sane ts weight_of ops sanityProps_empty
  have spm := @migrate_sane tsNew weight_of _ sp
  exact ⟨sanity_check_ok_iff.mpr sp, sp.counter_eq, sanity_total_size sp,
    sanity_check_ok_iff.mpr spm, spm.counter_eq, sanity_total_size spm⟩

/-! ## Migration facts (C9) -/

theorem isSome_eq_of_map_eq {α β : Type} {o o' : Option α} {f : α → β}
    (h : o.map f = o'.map f) : o.isSome = o'.isSome := by
  cases o <;> cases o' <;> simp_all

theorem upper_eq_of_pair_eq {o o' : Option Node}
    (h : o.map (fun m => (m.bag_upper, m.voter_type)) =
      o'.map (fun m => (m.bag_upper, m.voter_type))) :
    o.map (fun m => m.bag_upper) = o'.map (fun m => m.bag_upper) := by
  cases o <;> cases o' <;> simp_all

theorem migrateOne_facts (tsNew : List Nat) (wo : Nat → Nat) (x : Nat)
    {s : State} (sp : SanityProps s) :
    SanityProps (migrateOne tsNew wo x s) ∧
    (migrateOne tsNew wo x s).counter = s.counter ∧
    (∀ y, (lookup (migrateOne tsNew wo x s).nodes y).isSome =
      (lookup s.nodes y).isSome) ∧
    (∀ m, lookup (migrateOne tsNew wo x s).nodes x = some m →
      m.bag_upper = resolve tsNew (wo x)) ∧
    (∀ y, y ≠ x → (lookup (migrateOne tsNew wo x s).nodes y).map
        (fun m => m.bag_upper) =
      (lookup s.nodes y).map (fun m => m.bag_upper)) := by
  rcases hn : lookup s.nodes x with _ | n
  · have h : migrateOne tsNew wo x s = s := by
      unfold migrateOne update_position_for; rw [hn]
    rw [h]
    exact ⟨sp, rfl, fun y => rfl,
      fun m hm => absurd hm (by rw [hn]; exact fun hh => Option.noConfusion hh),
      fun y hy => rfl⟩
  · by_cases hb : n.bag_upper = resolve tsNew (wo x)
    · have h : migrateOne tsNew wo x s = s := by
        unfold migrateOne update_position_for; rw [hn]; simp only [if_pos hb]
      rw [h]
      refine ⟨sp, rfl, fun y => rfl, fun m hm => ?_, fun y hy => rfl⟩
      rw [hn] at hm
      cases hm
      exact hb
    · have h : migrateOne tsNew wo x s =
          insertAt x n.voter_type (resolve tsNew (wo x)) (remove x s) := by
        unfold migrateOne update_position_for; rw [hn]; simp only [if_neg hb]
      have RO := remove_spec sp hn
      have Ins := @insertAt_spec _ RO.sane x n.voter_type
        (resolve tsNew (wo x)) RO.node_gone
      rw [h]
      refine ⟨Ins.sane, ?_, ?_, ?_, ?_⟩
      · have h1 := Ins.counter
        have h2 := RO.counter
        omega
      · intro y
        by_cases hy : y = x
        · subst hy
          obtain ⟨nd, hnd, -, -, -⟩ := Ins.node
          rw [hnd, hn]
          rfl
        · exact (isSome_eq_of_map_eq (Ins.nodes_other y hy)).trans
            (isSome_eq_of_map_eq (RO.nodes_other y hy))
      · intro m hm
        obtain ⟨nd, hnd, -, hup, -⟩ := Ins.node
        rw [hnd] at hm
        cases hm
        exact hup
      · intro y hy
        exact (upper_eq_of_pair_eq (Ins.nodes_other y hy)).trans
          (upper_eq_of_pair_eq (RO.nodes_other y hy))

theorem migrate_fold_facts (tsNew : List Nat) (wo : Nat → Nat) :
    ∀ (ids : List Nat) (s : State), SanityProps s →
      SanityProps (ids.foldl (fun acc id => migrateOne tsNew wo id acc) s) ∧
      (ids.foldl (fun acc id => migrateOne tsNew wo id acc) s).counter =
        s.counter ∧
      (∀ y, (lookup (ids.foldl (fun acc id => migrateOne tsNew wo id acc)
          s).nodes y).isSome = (lookup s.nodes y).isSome) ∧
      (∀ y ∈ ids, ∀ m, lookup (ids.foldl
          (fun acc id => migrateOne tsNew wo id acc) s).nodes y = some m →
        m.bag_upper = resolve tsNew (wo y)) ∧
      (∀ y, y ∉ ids → (lookup (ids.foldl
          (fun acc id => migrateOne tsNew wo id acc) s).nodes y).map
          (fun m => m.bag_upper) =
        (lookup s.nodes y).map (fun m => m.bag_upper)) := by
  intro ids
  induction ids with
  | nil => exact fun s sp => ⟨sp, rfl, fun y => rfl, by simp, fun y hy => rfl⟩
  | cons x rest ih =>
      intro s sp
      obtain ⟨h1, h2, h3, h4, h5⟩ := migrateOne_facts tsNew wo x sp
      obtain ⟨g1, g2, g3, g4, g5⟩ := ih (migrateOne tsNew wo x s) h1
      refine ⟨g1, g2.trans h2, fun y => (g3 y).trans (h3 y), ?_, ?_⟩
      · intro y hy m hm
        rcases List.mem_cons.mp hy with rfl | hyr
        · by_cases hyr2 : y ∈ rest
          · exact g4 y hyr2 m hm
          · have hg := g5 y hyr2
            have hm2 : lookup (rest.foldl
                (fun acc id => migrateOne tsNew wo id acc)
                (migrateOne tsNew wo y s)).nodes y = some m := hm
            rw [hm2] at hg
            cases hl : lookup (migrateOne tsNew wo y s).nodes y with
            | none => rw [hl] at hg; simp at hg
            | some m' =>
                rw [hl] at hg
                have hval : m.bag_upper = m'.bag_upper := by simpa using hg
                rw [hval]
                exact h4 m' hl
        · exact g4 y hyr m hm
      · intro y hy
        have hyx : y ≠ x := fun hh => hy (hh ▸ List.mem_cons_self x rest)
        have hyr : y ∉ rest := fun hh => hy (List.mem_cons_of_mem x hh)
        exact (g5 y hyr).trans (h5 y hyx)

/-- C9: migration to a new threshold table preserves the population counter
and the set of stored identities, re-resolves every surviving node's
`bag_upper` under the new table, and keeps the sanity check passing; in the
concrete scenario a weight-12 voter under table `[10]` sits in band
`VoteWeight::MAX` and, after migrating to `[10, 20]`, in band `20`, with the
sanity check reporting no violation. -/
theorem c9_migration (tsNew : List Nat) (weight_of : Nat → Nat) (s : State)
    (hs : sanity_check s = Except.ok ()) :
    (migrate tsNew weight_of s).counter = s.counter ∧
    (∀ y m, lookup (migrate tsNew weight_of s).nodes y = some m →
      m.bag_upper = resolve tsNew (weight_of y)) ∧
    (∀ y, (lookup (migrate tsNew weight_of s).nodes y).isSome =
      (lookup s.nodes y).isSome) ∧
    sanity_check (migrate tsNew weight_of s) = Except.ok () ∧
    lookup (insert_as [10] (fun _ => 12) 3 .nominator emptyState).bagFor 3 =
      some MAXW ∧
    lookup (migrate [10, 20] (fun _ => 12)
        (insert_as [10] (fun _ => 12) 3 .nominator emptyState)).bagFor 3 =
      some 20 ∧
    sanity_check (migrate [10, 20] (fun _ => 12)
        (insert_as [10] (fun _ => 12) 3 .nominator emptyState)) =
      Except.ok () := by
  have sp := sanity_check_ok_iff.mp hs
  obtain ⟨g1, g2, g3, g4, g5⟩ :=
    migrate_fold_facts tsNew weight_of (s.nodes.map Prod.fst) s sp
  refine ⟨g2, ?_, g3, sanity_check_ok_iff.mpr g1, by decide, by decide, by rfl⟩
  intro y m hm
  have hys : (lookup s.nodes y).isSome = true := by
    rw [← g3 y]
    have hm2 : lookup ((s.nodes.map Prod.fst).foldl
        (fun acc id => migrateOne tsNew weight_of id acc) s).nodes y =
      some m := hm
    rw [hm2]
    rfl
  rcases Option.isSome_iff_exists.mp hys with ⟨n0, hn0⟩
  have hymem : y ∈ s.nodes.map Prod.fst :=
    List.mem_map_of_mem Prod.fst (lookup_mem hn0)
  exact g4 y hymem m hm

/-- Witness for C9: the migration scenario itself, starting from the sane
one-voter state of weight 12 under table `[10]`. -/
theorem c9_migration_witness :
    sanity_check (insert_as [10] (fun _ => 12) 3 .nominator emptyState) =
      Except.ok () ∧
    ((migrate [10, 20] (fun _ => 12)
        (insert_as [10] (fun _ => 12) 3 .nominator emptyState)).counter =
      (insert_as [10] (fun _ => 12) 3 .nominator emptyState).counter ∧
    (∀ y m, lookup (migrate [10, 20] (fun _ => 12)
        (insert_as [10] (fun _ => 12) 3 .nominator emptyState)).nodes y =
        some m → m.bag_upper = resolve [10, 20] 12) ∧
    (∀ y, (lookup (migrate [10, 20] (fun _ => 12)
        (insert_as [10] (fun _ => 12) 3 .nominator emptyState)).nodes
        y).isSome =
      (lookup (insert_as [10] (fun _ => 12) 3
        .nominator emptyState).nodes y).isSome) ∧
    sanity_check (migrate [10, 20] (fun _ => 12)
        (insert_as [10] (fun _ => 12) 3 .nominator emptyState)) =
      Except.ok () ∧
    lookup (insert_as [10] (fun _ => 12) 3 .nominator emptyState).bagFor 3 =
      some MAXW ∧
    lookup (migrate [10, 20] (fun _ => 12)
        (insert_as [10] (fun _ => 12) 3 .nominator emptyState)).bagFor 3 =
      some 20 ∧
    sanity_check (migrate [10, 20] (fun _ => 12)
        (insert_as [10] (fun _ => 12) 3 .nominator emptyState)) =
      Except.ok ()) :=
  ⟨by rfl, c9_migration [10, 20] (fun _ => 12)
    (insert_as [10] (fun _ => 12) 3 .nominator emptyState) (by rfl)⟩

/-! ## Insert-then-remove roundtrip (C7) -/

theorem replaceKV_replaceKV {α : Type} {l : List (Nat × α)} {k : Nat}
    {v w : α} : replaceKV k v (replaceKV k w l) = replaceKV k v l := by
  induction l with
  | nil => simp [replaceKV]
  | cons p rest ih =>
      obtain ⟨k', v'⟩ := p
      by_cases h : k' = k
      · subst h
        rw [replaceKV_cons_self, replaceKV_cons_self, replaceKV_cons_self, ih]
      · rw [replaceKV_cons_ne h, replaceKV_cons_ne h, replaceKV_cons_ne h, ih]

theorem remove_eq_of_lookup {s : State} {id : Nat} {n : Node}
    (hn : lookup s.nodes id = some n) :
    remove id s =
      { counter := s.counter - 1
        nodes := unlinkNodes id n s.nodes
        bagFor := removeKV id s.bagFor
        bags := removeBagOf id n
          ((lookup s.bags n.bag_upper).getD ⟨none, none⟩) s.bags
        events := s.events } := by
  unfold remove
  rw [hn]

/-- C7: inserting a fresh identity and then immediately removing it restores
the whole state record — counter, node store, `VoterBagFor` map, bag set
with head/tail links, and event log. -/
theorem c7_insert_remove_roundtrip (ts : List Nat) (weight_of : Nat → Nat)
    (id : Nat) (role : VoterType) (s : State)
    (hs : sanity_check s = Except.ok ()) (hid : lookup s.nodes id = none) :
    remove id (insert_as ts weight_of id role s) = s := by
  have sp := sanity_check_ok_iff.mp hs
  have hid' : id ∉ s.nodes.map Prod.fst := lookup_eq_none_iff.mp hid
  have hbf : lookup s.bagFor id = none := sanity_bagFor_none sp hid
  have hins : insert_as ts weight_of id role s =
      insertAt id role (resolve ts (weight_of id)) s := by
    unfold insert_as
    rw [hid]
    rfl
  rw [hins]
  set u := resolve ts (weight_of id) with hu
  rcases hb : lookup s.bags u with _ | b
  · -- the band had no bag: insert creates it, remove deletes it again
    have hs' : insertAt id role u s =
        { counter := s.counter + 1
          nodes := s.nodes ++ [(id, ⟨id, none, none, u, role⟩)]
          bagFor := s.bagFor ++ [(id, u)]
          bags := s.bags ++ [(u, ⟨some id, some id⟩)]
          events := s.events } := by
      unfold insertAt
      rw [hb]
      show ({ counter := s.counter + 1
              nodes := insertKV id ⟨id, none, none, u, role⟩ s.nodes
              bagFor := insertKV id u s.bagFor
              bags := insertKV u ⟨some id, some id⟩ s.bags
              events := s.events } : State) = _
      rw [insertKV_of_not_mem hid, insertKV_of_not_mem hbf,
        insertKV_of_not_mem hb]
    rw [hs']
    have hlook : lookup (s.nodes ++ [(id, (⟨id, none, none, u, role⟩ : Node))])
        id = some ⟨id, none, none, u, role⟩ := by
      rw [lookup_append_right_of_none hid, lookup_cons_self]
    rw [remove_eq_of_lookup hlook]
    show ({ counter := s.counter + 1 - 1
            nodes := unlinkNodes id ⟨id, none, none, u, role⟩
              (s.nodes ++ [(id, ⟨id, none, none, u, role⟩)])
            bagFor := removeKV id (s.bagFor ++ [(id, u)])
            bags := removeBagOf id ⟨id, none, none, u, role⟩
              ((lookup (s.bags ++ [(u, ⟨some id, some id⟩)]) u).getD
                ⟨none, none⟩)
              (s.bags ++ [(u, ⟨some id, some id⟩)])
            events := s.events } : State) = s
    have h1 : unlinkNodes id (⟨id, none, none, u, role⟩ : Node)
        (s.nodes ++ [(id, ⟨id, none, none, u, role⟩)]) = s.nodes := by
      show removeKV id (s.nodes ++ [(id, ⟨id, none, none, u, role⟩)]) = s.nodes
      rw [← insertKV_of_not_mem hid, removeKV_insertKV_not_mem hid]
    have h2 : removeKV id (s.bagFor ++ [(id, u)]) = s.bagFor := by
      rw [← insertKV_of_not_mem hbf, removeKV_insertKV_not_mem hbf]
    have h3 : lookup (s.bags ++ [(u, (⟨some id, some id⟩ : Bag))]) u =
        some ⟨some id, some id⟩ := by
      rw [lookup_append_right_of_none hb, lookup_cons_self]
    have h4 : removeBagOf id (⟨id, none, none, u, role⟩ : Node)
        (⟨some id, some id⟩ : Bag) (s.bags ++ [(u, ⟨some id, some id⟩)]) =
        s.bags := by
      unfold removeBagOf
      rw [if_pos (show (Bag.head ⟨some id, some id⟩ = some id) from rfl)]
      show removeKV u (s.bags ++ [(u, (⟨some id, some id⟩ : Bag))]) = s.bags
      rw [← insertKV_of_not_mem hb, removeKV_insertKV_not_mem hb]
    rw [h1, h2, h3, Option.getD_some, h4, Nat.add_sub_cancel]
  · -- the band already had a bag: insert appended at its tail
    obtain ⟨t, htl⟩ := sanity_bag_tail_some sp hb
    have hub : (u, b) ∈ s.bags := lookup_mem hb
    have hlenl := sanity_entry_chain_length sp hub
    obtain ⟨hnel, hheadl, htaill, hlinksl⟩ := sanity_entry_chain sp hub
    set l := chainFrom s.nodes s.nodes.length (u, b).2.head with hldef
    have hlast : l.getLast? = some t := by rw [← htaill]; exact htl
    have hsubl : l ⊆ s.nodes.map Prod.fst := checkLinks_subset_keys hlinksl
    have hidl : id ∉ l := fun hmem => hid' (hsubl hmem)
    have htmem : t ∈ l := by
      obtain ⟨l'', hl''⟩ := exists_concat_of_getLast? hlast
      rw [hl'']
      simp
    have ht_ne_id : t ≠ id := fun hh => hid' (hsubl (hh ▸ htmem))
    -- the stored tail node has no successor
    obtain ⟨l₁, hl₁⟩ := exists_concat_of_getLast? hlast
    have hlinks2 := hlinksl
    rw [hl₁, checkLinks_append, Bool.and_eq_true] at hlinks2
    obtain ⟨nt, hnt, -, -, -, hntnext, -⟩ :=
      checkLinks_cons_iff.mp hlinks2.2
    -- the head of the chain
    rcases hlcons : l with _ | ⟨h₁, lrest⟩
    · exact absurd hlcons hnel
    have hbhead : b.head = some h₁ := by
      rw [hheadl, hlcons]
      rfl
    have h1_ne_id : h₁ ≠ id := fun hh =>
      hidl (hh ▸ (hlcons ▸ List.mem_cons_self h₁ lrest))
    have hidupd : lookup (updateKV t (fun m => { m with next := some id })
        s.nodes) id = none := by
      rw [lookup_updateKV_ne (fun hh => ht_ne_id hh.symm)]
      exact hid
    have hs' : insertAt id role u s =
        { counter := s.counter + 1
          nodes := updateKV t (fun m => { m with next := some id }) s.nodes ++
            [(id, ⟨id, some t, none, u, role⟩)]
          bagFor := s.bagFor ++ [(id, u)]
          bags := replaceKV u ⟨b.head, some id⟩ s.bags
          events := s.events } := by
      unfold insertAt
      rw [hb]
      simp only [Option.getD_some]
      rw [htl]
      show ({ counter := s.counter + 1
              nodes := insertKV id ⟨id, some t, none, u, role⟩
                (updateKV t (fun m => { m with next := some id }) s.nodes)
              bagFor := insertKV id u s.bagFor
              bags := insertKV u ⟨b.head, some id⟩ s.bags
              events := s.events } : State) = _
      rw [insertKV_of_not_mem hidupd, insertKV_of_not_mem hbf,
        insertKV_of_mem (by simp [hb])]
    rw [hs']
    have hlook : lookup (updateKV t (fun m => { m with next := some id })
          s.nodes ++ [(id, (⟨id, some t, none, u, role⟩ : Node))]) id =
        some ⟨id, some t, none, u, role⟩ := by
      rw [lookup_append_right_of_none hidupd, lookup_cons_self]
    rw [remove_eq_of_lookup hlook]
    show ({ counter := s.counter + 1 - 1
            nodes := unlinkNodes id ⟨id, some t, none, u, role⟩
              (updateKV t (fun m => { m with next := some id }) s.nodes ++
                [(id, ⟨id, some t, none, u, role⟩)])
            bagFor := removeKV id (s.bagFor ++ [(id, u)])
            bags := removeBagOf id ⟨id, some t, none, u, role⟩
              ((lookup (replaceKV u ⟨b.head, some id⟩ s.bags) u).getD
                ⟨none, none⟩)
              (replaceKV u ⟨b.head, some id⟩ s.bags)
            events := s.events } : State) = s
    have h1 : unlinkNodes id (⟨id, some t, none, u, role⟩ : Node)
        (updateKV t (fun m => { m with next := some id }) s.nodes ++
          [(id, ⟨id, some t, none, u, role⟩)]) = s.nodes := by
      show removeKV id (updateKV t (fun n => { n with next := none })
        (updateKV t (fun m => { m with next := some id }) s.nodes ++
          [(id, ⟨id, some t, none, u, role⟩)])) = s.nodes
      rw [updateKV_append, updateKV_cons_ne ht_ne_id.symm, updateKV_updateKV]
      have hgf : ∀ v, (t, v) ∈ s.nodes →
          ({ { v with next := some id } with next := none } : Node) = v := by
        intro v hv
        have hveq : v = nt := by
          have hlv := mem_lookup sp.nodes_nodup hv
          rw [hlv] at hnt
          exact Option.some.inj hnt
        have hvnone : v.next = none := by rw [hveq]; exact hntnext.trans rfl
        show ({ v with next := none } : Node) = v
        rw [← hvnone]
      rw [updateKV_congr_id hgf]
      show removeKV id (s.nodes ++ [(id, (⟨id, some t, none, u, role⟩ : Node))]) =
        s.nodes
      rw [← insertKV_of_not_mem hid, removeKV_insertKV_not_mem hid]
    have h2 : removeKV id (s.bagFor ++ [(id, u)]) = s.bagFor := by
      rw [← insertKV_of_not_mem hbf, removeKV_insertKV_not_mem hbf]
    have h3 : lookup (replaceKV u (⟨b.head, some id⟩ : Bag) s.bags) u =
        some ⟨b.head, some id⟩ := lookup_replaceKV_self (by simp [hb])
    have h4 : removeBagOf id (⟨id, some t, none, u, role⟩ : Node)
        (⟨b.head, some id⟩ : Bag) (replaceKV u ⟨b.head, some id⟩ s.bags) =
        s.bags := by
      unfold removeBagOf
      rw [hbhead]
      rw [if_neg (fun hh => h1_ne_id (Option.some.inj hh)), if_pos rfl]
      show insertKV u ⟨some h₁, some t⟩
        (replaceKV u ⟨some h₁, some id⟩ s.bags) = s.bags
      rw [insertKV_of_mem (by simp [lookup_replaceKV_self
        (show (lookup s.bags u).isSome by simp [hb])]), replaceKV_replaceKV]
      have hbb : (⟨some h₁, some t⟩ : Bag) = b := by
        rw [← hbhead, ← htl]
      rw [hbb]
      exact replaceKV_self_eq sp.bags_nodup hb
    rw [h1, h2, h3, Option.getD_some, h4, Nat.add_sub_cancel]

/-- Witness for C7: inserting fresh voter `2` into the bag already holding
voter `1` and removing it again restores the exact one-voter state. -/
theorem c7_insert_remove_roundtrip_witness :
    sanity_check (insert_as [10, 20] (fun _ => 5) 1 .validator emptyState) =
      Except.ok () ∧
    lookup (insert_as [10, 20] (fun _ => 5) 1 .validator
      emptyState).nodes 2 = none ∧
    remove 2 (insert_as [10, 20] (fun _ => 5) 2 .nominator
        (insert_as [10, 20] (fun _ => 5) 1 .validator emptyState)) =
      insert_as [10, 20] (fun _ => 5) 1 .validator emptyState :=
  ⟨by rfl, by decide,
    c7_insert_remove_roundtrip [10, 20] (fun _ => 5) 2 .nominator
      (insert_as [10, 20] (fun _ => 5) 1 .validator emptyState)
      (by rfl) (by decide)⟩

/-! ## Iteration order (C3) -/

/-- A sequence of `insert_as` calls (any interleaving of inserts across
bands), as performed by the `on_validator_insert`/`on_nominator_insert`
hooks. -/
def applyInserts (ts : List Nat) (wo : Nat → Nat)
    (ops : List (Nat × VoterType)) (s : State) : State :=
  ops.foldl (fun acc p => insert_as ts wo p.1 p.2 acc) s

theorem mem_of_getLast?_eq {α : Type} {l : List α} {a : α}
    (h : l.getLast? = some a) : a ∈ l := by
  obtain ⟨hne, heq⟩ := List.mem_getLast?_eq_getLast h
  rw [heq]
  exact List.getLast_mem hne

theorem ts_lt_max_of_not_trailing {ts : List Nat}
    (hts : ts.Pairwise (· < ·)) (hmax : ∀ t ∈ ts, t ≤ MAXW)
    (hlast : ts.getLast? ≠ some MAXW) : ∀ t ∈ ts, t < MAXW := by
  intro t ht
  rcases Nat.lt_or_ge t MAXW with h | h
  · exact h
  · have hteq : t = MAXW := Nat.le_antisymm (hmax t ht) h
    exfalso
    obtain ⟨l₁, l₂, hsplit⟩ := List.append_of_mem ht
    cases l₂ with
    | nil =>
        apply hlast
        rw [hsplit, List.getLast?_concat, hteq]
    | cons x l₂' =>
        have h2 : List.Pairwise (· < ·) (t :: x :: l₂') := by
          rw [hsplit] at hts
          exact (List.pairwise_append.mp hts).2.1
        have hlt : t < x := (List.pairwise_cons.mp h2).1 x (by simp)
        have hxle : x ≤ MAXW := hmax x (by rw [hsplit]; simp)
        omega

theorem bagUppers_pairwise_gt {ts : List Nat} (hts : ts.Pairwise (· < ·))
    (hmax : ∀ t ∈ ts, t ≤ MAXW) : (bagUppers ts).Pairwise (· > ·) := by
  unfold bagUppers
  split
  · rw [List.pairwise_reverse]
    exact hts
  · next hl =>
      rw [List.pairwise_reverse, List.pairwise_append]
      refine ⟨hts, List.pairwise_singleton _ _, ?_⟩
      intro a ha b hb
      have hbe : b = MAXW := List.mem_singleton.mp hb
      subst hbe
      exact ts_lt_max_of_not_trailing hts hmax hl a ha

theorem bagUppers_nodup {ts : List Nat} (hts : ts.Pairwise (· < ·))
    (hmax : ∀ t ∈ ts, t ≤ MAXW) : (bagUppers ts).Nodup :=
  (bagUppers_pairwise_gt hts hmax).imp (fun h => Nat.ne_of_gt h)

theorem resolve_mem_bagUppers (ts : List Nat) (w : Nat) :
    resolve ts w ∈ bagUppers ts := by
  unfold bagUppers
  rw [List.mem_reverse]
  split
  · next hl =>
      rcases resolve_mem_or_max ts w with h | h
      · exact h
      · rw [h]
        exact mem_of_getLast?_eq hl
  · rcases resolve_mem_or_max ts w with h | h
    · exact List.mem_append_left _ h
    · rw [h]
      exact List.mem_append_right _ (by simp)

theorem filter_eq_filter_not_key {α : Type} {l : List α} {f : α → Nat}
    {u u' : Nat} (hne : u' ≠ u) :
    l.filter (fun a => decide (f a = u')) =
      (l.filter (fun a => !decide (f a = u))).filter
        (fun a => decide (f a = u')) := by
  rw [List.filter_filter]
  refine (List.filter_congr (fun a ha => ?_)).symm
  by_cases hq : f a = u'
  · have hxu : ¬(f a = u) := fun hh => hne (hq.symm.trans hh)
    simp [hq, hxu, hne]
  · simp [hq]

theorem partition_filter_perm {α : Type} (f : α → Nat) :
    ∀ (us : List Nat) (l : List α), us.Nodup → (∀ a ∈ l, f a ∈ us) →
      List.Perm (us.flatMap (fun u => l.filter (fun a => decide (f a = u))))
        l := by
  intro us
  induction us with
  | nil =>
      intro l hnd hall
      have hl : l = [] := by
        cases l with
        | nil => rfl
        | cons x rest => exact absurd (hall x (by simp)) (by simp)
      rw [hl]
      exact List.Perm.refl _
  | cons u us' ih =>
      intro l hnd hall
      rw [List.flatMap_cons]
      have hnd' : us'.Nodup := (List.nodup_cons.mp hnd).2
      have hu_not : u ∉ us' := (List.nodup_cons.mp hnd).1
      have hcongr : us'.flatMap
            (fun u' => l.filter (fun a => decide (f a = u'))) =
          us'.flatMap (fun u' => (l.filter (fun a => !decide (f a = u))).filter
            (fun a => decide (f a = u'))) := by
        rw [List.flatMap_def, List.flatMap_def]
        rw [List.map_congr_left (fun u' hu' =>
          @filter_eq_filter_not_key α l f u u' (fun hh => hu_not (hh ▸ hu')))]
      have hall' : ∀ a ∈ l.filter (fun a => !decide (f a = u)), f a ∈ us' := by
        intro a ha
        have hmem := List.mem_of_mem_filter ha
        have hfa : f a ≠ u := by simpa using List.of_mem_filter ha
        rcases List.mem_cons.mp (hall a hmem) with h | h
        · exact absurd h hfa
        · exact h
      have hperm2 := ih (l.filter (fun a => !decide (f a = u))) hnd' hall'
      rw [hcongr]
      exact (List.Perm.append_left _ hperm2).trans
        (List.filter_append_perm _ l)

theorem applyInserts_facts (ts : List Nat) (wo : Nat → Nat)
    (ops : List (Nat × VoterType)) :
    (ops.map Prod.fst).Nodup →
    SanityProps (applyInserts ts wo ops emptyState) ∧
    (applyInserts ts wo ops emptyState).nodes.map Prod.fst =
      ops.map Prod.fst ∧
    ∀ u, bagMembers (applyInserts ts wo ops emptyState) u =
      (ops.filter (fun p => decide (resolve ts (wo p.1) = u))).map
        Prod.fst := by
  induction ops using List.reverseRecOn with
  | nil => exact fun _ => ⟨sanityProps_empty, rfl, fun u => rfl⟩
  | append_singleton ops op ih =>
      intro hnd
      have hnd0 : (ops.map Prod.fst ++ List.map Prod.fst [op]).Nodup := by
        rw [← List.map_append]
        exact hnd
      have hnd' : (ops.map Prod.fst).Nodup := hnd0.of_append_left
      have hfresh : op.1 ∉ ops.map Prod.fst := by
        have hdisj := List.disjoint_of_nodup_append hnd0
        exact fun hm => hdisj hm (by simp)
      obtain ⟨sp, hkeys, hmem⟩ := ih hnd'
      have hid : lookup (applyInserts ts wo ops emptyState).nodes op.1 =
          none := by
        rw [lookup_eq_none_iff, hkeys]
        exact hfresh
      have h1 : applyInserts ts wo (ops ++ [op]) emptyState =
          insert_as ts wo op.1 op.2 (applyInserts ts wo ops emptyState) := by
        unfold applyInserts
        rw [List.foldl_append]
        rfl
      have happ : applyInserts ts wo (ops ++ [op]) emptyState =
          insertAt op.1 op.2 (resolve ts (wo op.1))
            (applyInserts ts wo ops emptyState) := by
        rw [h1]
        unfold insert_as
        rw [hid]
        rfl
      have Ins := @insertAt_spec _ sp op.1 op.2 (resolve ts (wo op.1)) hid
      rw [happ]
      refine ⟨Ins.sane, ?_, ?_⟩
      · rw [Ins.keys, hkeys, List.map_append]
        rfl
      · intro u
        by_cases hu : resolve ts (wo op.1) = u
        · subst hu
          rw [Ins.members_new, hmem, List.filter_append, List.map_append]
          have hf1 : List.filter
              (fun q => decide (resolve ts (wo q.1) = resolve ts (wo op.1)))
              [op] = [op] := by simp
          rw [hf1]
          rfl
        · rw [Ins.members_old u (fun hh => hu hh.symm), hmem,
            List.filter_append, List.map_append]
          have hf0 : List.filter (fun q => decide (resolve ts (wo q.1) = u))
              [op] = [] := by simp [hu]
          rw [hf0]
          simp

/-- C3: after any interleaving of inserts of distinct identities from
genesis, full iteration visits bands in strictly descending `bag_upper`
order, within each band exactly the voters whose weight resolved there, in
their insertion order; every stored voter appears exactly once. -/
theorem c3_iteration_order (ts : List Nat) (wo : Nat → Nat)
    (ops : List (Nat × VoterType)) (hnd : (ops.map Prod.fst).Nodup)
    (hts : ts.Pairwise (· < ·)) (hmax : ∀ t ∈ ts, t ≤ MAXW) :
    iterIds ts (applyInserts ts wo ops emptyState) =
      (bagUppers ts).flatMap (fun u =>
        (ops.filter (fun p => decide (resolve ts (wo p.1) = u))).map
          Prod.fst) ∧
    List.Perm (iterIds ts (applyInserts ts wo ops emptyState))
      ((applyInserts ts wo ops emptyState).nodes.map Prod.fst) ∧
    (iterIds ts (applyInserts ts wo ops emptyState)).Nodup ∧
    (bagUppers ts).Pairwise (· > ·) := by
  obtain ⟨sp, hkeys, hmem⟩ := applyInserts_facts ts wo ops hnd
  have horder : iterIds ts (applyInserts ts wo ops emptyState) =
      (bagUppers ts).flatMap (fun u =>
        (ops.filter (fun p => decide (resolve ts (wo p.1) = u))).map
          Prod.fst) := by
    unfold iterIds
    rw [List.flatMap_def, List.flatMap_def,
      List.map_congr_left (fun u hu => hmem u)]
  have hperm : List.Perm (iterIds ts (applyInserts ts wo ops emptyState))
      ((applyInserts ts wo ops emptyState).nodes.map Prod.fst) := by
    rw [horder, hkeys]
    have hswap : (bagUppers ts).flatMap (fun u =>
        (ops.filter (fun p => decide (resolve ts (wo p.1) = u))).map
          Prod.fst) =
      ((bagUppers ts).flatMap (fun u =>
        ops.filter (fun p => decide (resolve ts (wo p.1) = u)))).map
          Prod.fst := (List.map_flatMap _ _ _).symm
    rw [hswap]
    exact List.Perm.map Prod.fst
      (partition_filter_perm (fun p => resolve ts (wo p.1)) (bagUppers ts)
        ops (bagUppers_nodup hts hmax)
        (fun a ha => resolve_mem_bagUppers ts (wo a.1)))
  refine ⟨horder, hperm, ?_, bagUppers_pairwise_gt hts hmax⟩
  rw [hperm.nodup_iff, hkeys]
  exact hnd

/-- Concrete weight oracle for the C3 witness: voter 1 weighs 25 (top band),
voter 2 weighs 5 (band 10), voter 3 weighs 15 (band 20). -/
def wo3 : Nat → Nat := fun x => if x = 1 then 25 else if x = 2 then 5 else 15

/-- Concrete insert interleaving for the C3 witness. -/
def ops3 : List (Nat × VoterType) :=
  [(1, .validator), (2, .nominator), (3, .validator)]

/-- Witness for C3: three voters inserted across three bands under
thresholds `[10, 20]`. -/
theorem c3_iteration_order_witness :
    ((ops3.map Prod.fst).Nodup ∧ [10, 20].Pairwise (· < ·) ∧
      (∀ t ∈ [10, 20], t ≤ MAXW)) ∧
    (iterIds [10, 20] (applyInserts [10, 20] wo3 ops3 emptyState) =
      (bagUppers [10, 20]).flatMap (fun u =>
        (ops3.filter (fun p =>
          decide (resolve [10, 20] (wo3 p.1) = u))).map Prod.fst) ∧
    List.Perm (iterIds [10, 20] (applyInserts [10, 20] wo3 ops3 emptyState))
      ((applyInserts [10, 20] wo3 ops3 emptyState).nodes.map Prod.fst) ∧
    (iterIds [10, 20] (applyInserts [10, 20] wo3 ops3 emptyState)).Nodup ∧
    (bagUppers [10, 20]).Pairwise (· > ·)) :=
  ⟨⟨by decide, by decide, by decide⟩,
    c3_iteration_order [10, 20] wo3 ops3 (by decide) (by decide) (by decide)⟩

end VoterBags
